import Mathlib

/-!
Verification development for the optithor repository.

The Python source is embedded shallowly: strings are Lean `String`s
manipulated through their character lists, pandas data frames become
lists of typed row structures, `None`/`NaN` cells become `Option`
values, and floating point masses become rationals.  Every definition
mirrors one function of the source tree; the theorems at the end of the
file settle the specification claims against these definitions.
-/

namespace Optithor

/-! ## Character and string primitives (Python `str` helpers) -/

/-- ASCII whitespace recognised by Python's `str.strip`. -/
def isWsChar (c : Char) : Bool :=
  c = ' ' || c = '\t' || c = '\n' || c = '\r' || c = '\x0b' || c = '\x0c'

/-- `str.strip` on a character list: drop whitespace at both ends. -/
def pyStrip (l : List Char) : List Char :=
  ((l.dropWhile isWsChar).reverse.dropWhile isWsChar).reverse

/-- `str.strip` lifted to `String`. -/
def strip (s : String) : String := ⟨pyStrip s.data⟩

/-- ASCII lower-casing of one character (Python `str.lower` on ASCII). -/
def lowChar (c : Char) : Char :=
  if 'A' ≤ c ∧ c ≤ 'Z' then Char.ofNat (c.toNat + 32) else c

/-- `str.lower` lifted to `String`. -/
def lower (s : String) : String := ⟨s.data.map lowChar⟩

/-- Decimal digit test. -/
def isDigitChar (c : Char) : Bool := '0' ≤ c && c ≤ '9'

/-- Uppercase ASCII letter test. -/
def isUpperChar (c : Char) : Bool := 'A' ≤ c && c ≤ 'Z'

/-- Lowercase ASCII letter test. -/
def isLowerChar (c : Char) : Bool := 'a' ≤ c && c ≤ 'z'

/-- Regex word character (`\w` over ASCII input). -/
def isWordChar (c : Char) : Bool :=
  isUpperChar c || isLowerChar c || isDigitChar c || c = '_'

/-- Value of a list of decimal digit characters (Python `int(...)`). -/
def digitsToNat (l : List Char) : Nat :=
  l.foldl (fun a c => 10 * a + (c.toNat - 48)) 0

/-- The decimal digit character for a value below 10. -/
def digitChar : Nat → Char
  | 0 => '0' | 1 => '1' | 2 => '2' | 3 => '3' | 4 => '4'
  | 5 => '5' | 6 => '6' | 7 => '7' | 8 => '8' | _ => '9'

/-- Fuel-driven worker for `natNumeral`; the fuel only forces structural
recursion (so the kernel can evaluate it) and is always large enough. -/
def natNumeralAux : Nat → Nat → List Char
  | 0, _ => []
  | f + 1, n =>
    if n < 10 then [digitChar n]
    else natNumeralAux f (n / 10) ++ [digitChar (n % 10)]

/-- Decimal numeral of a natural number, as the character list Python's
`str(n)` produces. -/
def natNumeral (n : Nat) : List Char := natNumeralAux (n + 1) n

theorem natNumeralAux_fuel (f1 f2 n : Nat) (h1 : n < f1) (h2 : n < f2) :
    natNumeralAux f1 n = natNumeralAux f2 n := by
  induction n using Nat.strong_induction_on generalizing f1 f2 with
  | _ n ih =>
    cases f1 with
    | zero => omega
    | succ g1 =>
      cases f2 with
      | zero => omega
      | succ g2 =>
        rw [show natNumeralAux (g1 + 1) n =
            (if n < 10 then [digitChar n]
             else natNumeralAux g1 (n / 10) ++ [digitChar (n % 10)]) from rfl,
          show natNumeralAux (g2 + 1) n =
            (if n < 10 then [digitChar n]
             else natNumeralAux g2 (n / 10) ++ [digitChar (n % 10)]) from rfl]
        by_cases hn : n < 10
        · rw [if_pos hn, if_pos hn]
        · rw [if_neg hn, if_neg hn,
            ih (n / 10) (Nat.div_lt_self (by omega) (by decide)) g1 g2
              (by omega) (by omega)]

/-- Unfolding equation for `natNumeral`. -/
theorem natNumeral_eq (n : Nat) :
    natNumeral n = if n < 10 then [digitChar n]
      else natNumeral (n / 10) ++ [digitChar (n % 10)] := by
  unfold natNumeral
  rw [show natNumeralAux (n + 1) n =
      (if n < 10 then [digitChar n]
       else natNumeralAux n (n / 10) ++ [digitChar (n % 10)]) from rfl]
  by_cases hn : n < 10
  · rw [if_pos hn, if_pos hn]
  · rw [if_neg hn, if_neg hn,
      natNumeralAux_fuel n (n / 10 + 1) (n / 10)
        (by omega) (by omega)]

/-! ## FormulaChemistry: `elemental_counts` (src/optithor/utils.py) -/

/-- Fuel-driven worker for `findTokens`; fuel only forces structural
recursion and is always at least the list length, which suffices since
every step consumes at least one character. -/
def findTokensAux : Nat → List Char → List (List Char × List Char)
  | 0, _ => []
  | _ + 1, [] => []
  | fuel + 1, c :: t =>
    if isUpperChar c then
      match t with
      | d :: t1 =>
        if isLowerChar d then
          let ds := t1.takeWhile isDigitChar
          ([c, d], ds) :: findTokensAux fuel (t1.drop ds.length)
        else
          let ds := t.takeWhile isDigitChar
          ([c], ds) :: findTokensAux fuel (t.drop ds.length)
      | [] => [([c], [])]
    else findTokensAux fuel t

/-- One pass of `re.findall(r"([A-Z][a-z]?)(\d*)", formula)`: the list of
(symbol, digit-run) tokens, scanning left to right, skipping characters
that start no match. -/
def findTokens (l : List Char) : List (List Char × List Char) :=
  findTokensAux l.length l

/-- Python `dict` assignment on an association list: an existing key is
overwritten in place (keeping its position), a new key is appended. -/
def dictSet : List (String × Nat) → String → Nat → List (String × Nat)
  | [], k, v => [(k, v)]
  | p :: ps, k, v => if p.1 = k then (k, v) :: ps else p :: dictSet ps k v

/-- Lookup in the association list. -/
def dictGet : List (String × Nat) → String → Option Nat
  | [], _ => none
  | p :: ps, k => if p.1 = k then some p.2 else dictGet ps k

/-- Key membership in the association list (Python `element in counts`). -/
def dictHas (m : List (String × Nat)) (k : String) : Bool :=
  (dictGet m k).isSome

/-- Loop body of `elemental_counts`: if the token's symbol is a requested
element, assign (not add) its digit count, defaulting to 1. -/
def applyToken (m : List (String × Nat)) (tok : List Char × List Char) :
    List (String × Nat) :=
  if dictHas m ⟨tok.1⟩ then
    dictSet m ⟨tok.1⟩ (if tok.2 = [] then 1 else digitsToNat tok.2)
  else m

/-- `elemental_counts` of src/optithor/utils.py: initialise every requested
element to 0, then fold `applyToken` over the regex tokens. -/
def elementalCounts (molecularFormula : String) (elements : List String) :
    List (String × Nat) :=
  let init := elements.foldl (fun m e => dictSet m e 0) []
  (findTokens molecularFormula.data).foldl applyToken init

/-- Count contributed by one regex token: its digit run, or 1 when the
run is empty. -/
def tokenValue (tok : List Char × List Char) : Nat :=
  if tok.2 = [] then 1 else digitsToNat tok.2

/-- The count the last formula token carrying symbol `e` assigns, or 0
when no token carries `e`. -/
def lastTokenCount (formula : String) (e : String) : Nat :=
  match ((findTokens formula.data).filter
      (fun tok => (⟨tok.1⟩ : String) = e)).getLast? with
  | none => 0
  | some tok => tokenValue tok

/-! ### Association-list lemmas for the Python dict embedding -/

theorem dictGet_dictSet_self (m : List (String × Nat)) (k : String) (v : Nat) :
    dictGet (dictSet m k v) k = some v := by
  induction m with
  | nil => simp [dictSet, dictGet]
  | cons p ps ih =>
    by_cases hp : p.1 = k
    · simp [dictSet, dictGet, hp]
    · simp [dictSet, dictGet, hp, ih]

theorem dictGet_dictSet_ne (m : List (String × Nat)) (k k' : String) (v : Nat)
    (hne : k' ≠ k) : dictGet (dictSet m k v) k' = dictGet m k' := by
  induction m with
  | nil =>
    simp only [dictSet, dictGet]
    rw [if_neg (fun h : (k, v).1 = k' => hne h.symm)]
  | cons p ps ih =>
    simp only [dictSet]
    by_cases hp : p.1 = k
    · rw [if_pos hp]
      simp only [dictGet]
      rw [if_neg (fun h : (k, v).1 = k' => hne h.symm),
        if_neg (fun h : p.1 = k' => hne ((hp.symm.trans h).symm))]
    · rw [if_neg hp]
      simp only [dictGet]
      by_cases hq : p.1 = k'
      · rw [if_pos hq, if_pos hq]
      · rw [if_neg hq, if_neg hq]
        exact ih

theorem dictHas_dictSet (m : List (String × Nat)) (k k' : String) (v : Nat) :
    dictHas (dictSet m k v) k' = (dictHas m k' || decide (k' = k)) := by
  by_cases hk : k' = k
  · subst hk
    simp [dictHas, dictGet_dictSet_self]
  · simp [dictHas, dictGet_dictSet_ne m k k' v hk, hk]

theorem dictGet_foldl_dictSet_zero (els : List String) (e : String)
    (m0 : List (String × Nat)) (he : e ∈ els) :
    dictGet (els.foldl (fun m x => dictSet m x 0) m0) e = some 0 := by
  induction els generalizing m0 with
  | nil => cases he
  | cons x xs ih =>
    simp only [List.foldl_cons]
    by_cases hx : e ∈ xs
    · exact ih (dictSet m0 x 0) hx
    · have hex : e = x := by
        rcases List.mem_cons.mp he with h | h
        · exact h
        · exact absurd h hx
      subst hex
      -- e not in xs: the remaining folds keep the value
      have keep : ∀ (xs : List String) (m : List (String × Nat)),
          e ∉ xs → dictGet (xs.foldl (fun m x => dictSet m x 0) m) e = dictGet m e := by
        intro xs
        induction xs with
        | nil => intro m _; rfl
        | cons y ys ihy =>
          intro m hm
          simp only [List.mem_cons, not_or] at hm
          simp only [List.foldl_cons]
          rw [ihy _ hm.2, dictGet_dictSet_ne _ _ _ _ hm.1]
      rw [keep xs _ hx, dictGet_dictSet_self]

theorem dictHas_foldl_dictSet_zero (els : List String) (e : String)
    (m0 : List (String × Nat)) (he : e ∈ els) :
    dictHas (els.foldl (fun m x => dictSet m x 0) m0) e = true := by
  induction els generalizing m0 with
  | nil => cases he
  | cons x xs ih =>
    simp only [List.foldl_cons]
    by_cases hx : e ∈ xs
    · exact ih (dictSet m0 x 0) hx
    · have hex : e = x := by
        rcases List.mem_cons.mp he with h | h
        · exact h
        · exact absurd h hx
      subst hex
      have keep : ∀ (xs : List String) (m : List (String × Nat)),
          dictHas m e = true → dictHas (xs.foldl (fun m x => dictSet m x 0) m) e = true := by
        intro xs
        induction xs with
        | nil => intro m hm; exact hm
        | cons y ys ihy =>
          intro m hm
          simp only [List.foldl_cons]
          exact ihy _ (by rw [dictHas_dictSet, hm, Bool.true_or])
      exact keep xs _ (by rw [dictHas_dictSet]; simp)

theorem dictHas_applyToken (m : List (String × Nat)) (tok : List Char × List Char)
    (e : String) (hm : dictHas m e = true) : dictHas (applyToken m tok) e = true := by
  unfold applyToken
  by_cases h : dictHas m (⟨tok.1⟩ : String)
  · rw [if_pos h, dictHas_dictSet, hm, Bool.true_or]
  · rw [if_neg h]
    exact hm

theorem dictGet_foldl_applyToken (toks : List (List Char × List Char))
    (m : List (String × Nat)) (e : String) (hm : dictHas m e = true) :
    dictGet (toks.foldl applyToken m) e =
      match (toks.filter (fun tok => (⟨tok.1⟩ : String) = e)).getLast? with
      | none => dictGet m e
      | some tok => some (tokenValue tok) := by
  induction toks generalizing m with
  | nil => simp
  | cons tok ts ih =>
    simp only [List.foldl_cons]
    rw [ih (applyToken m tok) (dictHas_applyToken m tok e hm)]
    by_cases hsym : (⟨tok.1⟩ : String) = e
    · have hget : dictGet (applyToken m tok) e = some (tokenValue tok) := by
        unfold applyToken
        rw [hsym, if_pos hm, dictGet_dictSet_self]
        rfl
      simp only [List.filter_cons, decide_eq_true hsym, if_true]
      cases hts : ts.filter (fun tok => (⟨tok.1⟩ : String) = e) with
      | nil => simp [hget]
      | cons t2 l2 =>
        rw [List.getLast?_cons_cons]
        rw [List.getLast?_eq_getLast (t2 :: l2) (by simp)]
    · have hget : dictGet (applyToken m tok) e = dictGet m e := by
        unfold applyToken
        by_cases h : dictHas m (⟨tok.1⟩ : String)
        · rw [if_pos h, dictGet_dictSet_ne _ _ _ _ (fun hc => hsym hc.symm)]
        · rw [if_neg h]
      simp only [List.filter_cons, decide_eq_false hsym, Bool.false_eq_true, if_false, hget]

/-- C1 (counterexample): `elemental_counts` does not sum repeated symbol
occurrences — in "CC" the element C occurs as two atoms, yet the count
returned is 1, because each token assignment overwrites the previous. -/
theorem elementalCounts_repeated_symbol_not_summed :
    elementalCounts "CC" ["C"] = [("C", 1)] ∧
      elementalCounts "CC" ["C"] ≠ [("C", 2)] := by
  constructor
  · rfl
  · decide

/-- C1 (amended): for every requested element, `elemental_counts` returns
the digit count (1 when absent) of the LAST formula token carrying that
element's symbol, or 0 when no token carries it; unrecognized symbols are
ignored and every requested element is present in the mapping. -/
theorem elementalCounts_lastTokenWins (f : String) (els : List String)
    (e : String) (he : e ∈ els) :
    dictGet (elementalCounts f els) e = some (lastTokenCount f e) := by
  unfold elementalCounts lastTokenCount
  have hm : dictHas (els.foldl (fun m x => dictSet m x 0) []) e = true :=
    dictHas_foldl_dictSet_zero els e [] he
  rw [dictGet_foldl_applyToken _ _ _ hm]
  cases hfl : ((findTokens f.data).filter
      (fun tok => (⟨tok.1⟩ : String) = e)).getLast? with
  | none => exact dictGet_foldl_dictSet_zero els e [] he
  | some tok => rfl

/-- Witness for the C1 amended theorem at a concrete formula. -/
theorem elementalCounts_lastTokenWins_witness :
    dictGet (elementalCounts "CH3COOH" ["C", "H", "O"]) "O" =
      some (lastTokenCount "CH3COOH" "O") :=
  elementalCounts_lastTokenWins "CH3COOH" ["C", "H", "O"] "O" (by decide)

/-! ## FormulaChemistry: `split_hydrate_formula` (src/optithor/utils.py) -/

/-- `s.replace("·", "•").replace(".", "•")`: both replacements are
single-character, so together they are one character map. -/
def replaceSeps (l : List Char) : List Char :=
  l.map (fun c => if c = '·' ∨ c = '.' then '•' else c)

/-- Python `str.split('•')` on character lists: split at every bullet,
keeping empty chunks. -/
def splitSep : List Char → List (List Char)
  | [] => [[]]
  | c :: t =>
    if c = '•' then [] :: splitSep t
    else (c :: (splitSep t).headD []) :: (splitSep t).tail

/-- `part.replace(" ", "")`: remove space characters. -/
def removeSpaces (l : List Char) : List Char :=
  l.filter (fun c => decide (c ≠ ' '))

/-- Attempt of the regex `(?:(\d+))?H2O\b` anchored at the start of `l`:
the greedy digit run, then the literal `H2O`, then a word boundary.
(If the maximal digit run is not followed by `H2O` no backtracking can
help: a shorter run leaves a digit where `H` is required, and skipping
the optional group leaves a digit where `H` is required as well.)
Returns the water count of the match: the digit-run value, or 1 when the
run is empty. -/
def matchH2OAt (l : List Char) : Option Nat :=
  match l.drop (l.takeWhile isDigitChar).length with
  | 'H' :: '2' :: 'O' :: tail =>
    match tail with
    | [] => some (if l.takeWhile isDigitChar = [] then 1
        else digitsToNat (l.takeWhile isDigitChar))
    | c :: _ =>
      if isWordChar c then none
      else some (if l.takeWhile isDigitChar = [] then 1
        else digitsToNat (l.takeWhile isDigitChar))
  | _ => none

/-- `re.search(r"(?:(\d+))?H2O\b", compact)`: leftmost match. -/
def searchH2O : List Char → Option Nat
  | [] => none
  | c :: t =>
    match matchH2OAt (c :: t) with
    | some w => some w
    | none => searchH2O t

/-- The water-count loop of `split_hydrate_formula`: the first part (after
the base) whose space-stripped text matches the pattern gives the count;
no match gives 0. -/
def findWater : List (List Char) → Nat
  | [] => 0
  | p :: ps =>
    match searchH2O (removeSpaces p) with
    | some w => w
    | none => findWater ps

/-- `split_hydrate_formula` of src/optithor/utils.py.  The stripped,
separator-normalised text appears spelled out where the Python binds it
to `s`. -/
def splitHydrateFormula (formula : String) : String × Nat :=
  if formula = "" then ("", 0)
  else if '•' ∈ replaceSeps (pyStrip formula.data) then
    match ((splitSep (replaceSeps (pyStrip formula.data))).map pyStrip).filter
        (fun p => decide (p ≠ [])) with
    | [] => (⟨replaceSeps (pyStrip formula.data)⟩, 0)
    | base :: rest => (⟨base⟩, findWater rest)
  else (⟨replaceSeps (pyStrip formula.data)⟩, 0)

/-! ### Character-class and list lemmas used for the hydrate-split claim -/

theorem ws_char_cases (c : Char) (h : isWsChar c = true) :
    c = ' ' ∨ c = '\t' ∨ c = '\n' ∨ c = '\r' ∨ c = '\x0b' ∨ c = '\x0c' := by
  unfold isWsChar at h
  simpa [Bool.or_eq_true_iff, decide_eq_true_eq, or_assoc] using h

theorem digit_not_ws (c : Char) (h : isDigitChar c = true) : isWsChar c = false := by
  by_contra hws
  rcases ws_char_cases c (by revert hws; cases isWsChar c <;> simp) with
    h1 | h1 | h1 | h1 | h1 | h1 <;> (subst h1; revert h; decide)

theorem digit_ne (c x : Char) (h : isDigitChar c = true) (hx : isDigitChar x = false) :
    c ≠ x := fun he => by subst he; rw [h] at hx; cases hx

theorem isDigit_digitChar (k : Nat) : isDigitChar (digitChar k) = true := by
  unfold digitChar
  split <;> decide

theorem digitChar_val (k : Nat) (h : k < 10) : (digitChar k).toNat - 48 = k := by
  interval_cases k <;> decide

theorem natNumeral_all_digits (n : Nat) :
    ∀ c ∈ natNumeral n, isDigitChar c = true := by
  induction n using Nat.strong_induction_on with
  | _ n ih =>
    rw [natNumeral_eq]
    by_cases hn : n < 10
    · rw [if_pos hn]
      intro c hc
      rw [List.mem_singleton.mp hc]
      exact isDigit_digitChar n
    · rw [if_neg hn]
      intro c hc
      rcases List.mem_append.mp hc with h1 | h1
      · exact ih (n / 10) (by omega) c h1
      · rw [List.mem_singleton.mp h1]
        exact isDigit_digitChar (n % 10)

theorem natNumeral_ne_nil (n : Nat) : natNumeral n ≠ [] := by
  rw [natNumeral_eq]
  by_cases hn : n < 10
  · rw [if_pos hn]; simp
  · rw [if_neg hn]; simp

theorem digitsToNat_natNumeral (n : Nat) : digitsToNat (natNumeral n) = n := by
  induction n using Nat.strong_induction_on with
  | _ n ih =>
    rw [natNumeral_eq]
    by_cases hn : n < 10
    · rw [if_pos hn]
      show 10 * 0 + ((digitChar n).toNat - 48) = n
      rw [digitChar_val n hn]
      omega
    · rw [if_neg hn]
      unfold digitsToNat
      rw [List.foldl_append]
      show 10 * digitsToNat (natNumeral (n / 10)) + ((digitChar (n % 10)).toNat - 48) = n
      rw [ih (n / 10) (by omega), digitChar_val (n % 10) (by omega)]
      omega

theorem dropWhile_cons_false (p : Char → Bool) (c : Char) (l : List Char)
    (h : p c = false) : List.dropWhile p (c :: l) = c :: l := by
  simp [List.dropWhile_cons, h]

theorem dropWhile_append_all (p : Char → Bool) (l1 l2 : List Char)
    (h : ∀ c ∈ l1, p c = true) :
    List.dropWhile p (l1 ++ l2) = List.dropWhile p l2 := by
  induction l1 with
  | nil => rfl
  | cons c t ih =>
    simp only [List.cons_append, List.dropWhile_cons, h c (by simp), if_true]
    exact ih (fun x hx => h x (by simp [hx]))

theorem takeWhile_cons_false (p : Char → Bool) (c : Char) (l : List Char)
    (h : p c = false) : List.takeWhile p (c :: l) = [] := by
  simp [List.takeWhile_cons, h]

theorem takeWhile_append_all (p : Char → Bool) (l1 l2 : List Char)
    (h : ∀ c ∈ l1, p c = true) :
    List.takeWhile p (l1 ++ l2) = l1 ++ List.takeWhile p l2 := by
  induction l1 with
  | nil => rfl
  | cons c t ih =>
    simp only [List.cons_append, List.takeWhile_cons, h c (by simp), if_true]
    rw [ih (fun x hx => h x (by simp [hx]))]

theorem pyStrip_pad (w1 l w2 : List Char)
    (hw1 : ∀ c ∈ w1, isWsChar c = true) (hw2 : ∀ c ∈ w2, isWsChar c = true)
    (hh : ∀ c, l.head? = some c → isWsChar c = false)
    (hl : ∀ c, l.getLast? = some c → isWsChar c = false) :
    pyStrip (w1 ++ l ++ w2) = l := by
  cases l with
  | nil =>
    unfold pyStrip
    rw [List.append_nil, dropWhile_append_all _ w1 w2 hw1]
    have : List.dropWhile isWsChar w2 = [] := by
      have := dropWhile_append_all isWsChar w2 [] hw2
      simpa using this
    rw [this]
    rfl
  | cons a t =>
    unfold pyStrip
    rw [List.append_assoc, dropWhile_append_all _ w1 _ hw1, List.cons_append,
      dropWhile_cons_false _ a _ (hh a rfl)]
    rw [show (a :: (t ++ w2)) = (a :: t) ++ w2 from rfl, List.reverse_append,
      dropWhile_append_all _ w2.reverse _ (fun c hc => hw2 c (List.mem_reverse.mp hc))]
    cases hr : (a :: t).reverse with
    | nil => exact absurd hr (by simp)
    | cons b bs =>
      have hb : (a :: t).getLast? = some b := by
        rw [← List.head?_reverse, hr]
        rfl
      rw [dropWhile_cons_false _ b _ (hl b hb), ← hr, List.reverse_reverse]

theorem pyStrip_eq_self (l : List Char)
    (hh : ∀ c, l.head? = some c → isWsChar c = false)
    (hl : ∀ c, l.getLast? = some c → isWsChar c = false) :
    pyStrip l = l := by
  have := pyStrip_pad [] l [] (by simp) (by simp) hh hl
  simpa using this

theorem splitSep_not_mem (l : List Char) (h : '•' ∉ l) : splitSep l = [l] := by
  induction l with
  | nil => rfl
  | cons c t ih =>
    have hc : ¬(c = '•') := fun hc => h (by rw [hc]; exact List.mem_cons_self _ _)
    simp only [splitSep, if_neg hc, ih (fun hm => h (List.mem_cons_of_mem c hm))]
    rfl

theorem splitSep_append (l1 l2 : List Char) (h : '•' ∉ l1) :
    splitSep (l1 ++ '•' :: l2) = l1 :: splitSep l2 := by
  induction l1 with
  | nil =>
    show splitSep ('•' :: l2) = [] :: splitSep l2
    simp [splitSep]
  | cons c t ih =>
    show splitSep (c :: (t ++ '•' :: l2)) = (c :: t) :: splitSep l2
    have hc : ¬(c = '•') := fun hc => h (by rw [hc]; exact List.mem_cons_self _ _)
    simp only [splitSep, if_neg hc, ih (fun hm => h (List.mem_cons_of_mem c hm))]
    rfl

theorem replaceSeps_eq_self (l : List Char)
    (h : ∀ c ∈ l, c ≠ '·' ∧ c ≠ '.') : replaceSeps l = l := by
  unfold replaceSeps
  rw [show l.map (fun c => if c = '·' ∨ c = '.' then '•' else c) = l.map id by
    apply List.map_congr_left
    intro a ha
    have := h a ha
    simp [this.1, this.2]]
  exact List.map_id l

theorem removeSpaces_append (l1 l2 : List Char) :
    removeSpaces (l1 ++ l2) = removeSpaces l1 ++ removeSpaces l2 := by
  simp [removeSpaces]

theorem removeSpaces_all_spaces (l : List Char) (h : ∀ c ∈ l, c = ' ') :
    removeSpaces l = [] := by
  induction l with
  | nil => rfl
  | cons c t ih =>
    unfold removeSpaces
    rw [List.filter_cons, h c (by simp)]
    simp only [decide_eq_true_eq]
    rw [if_neg (by simp)]
    exact ih (fun x hx => h x (by simp [hx]))

theorem removeSpaces_no_spaces (l : List Char) (h : ∀ c ∈ l, c ≠ ' ') :
    removeSpaces l = l := by
  induction l with
  | nil => rfl
  | cons c t ih =>
    unfold removeSpaces
    rw [List.filter_cons]
    rw [decide_eq_true (h c (by simp))]
    rw [if_pos rfl]
    rw [show List.filter (fun c => decide (c ≠ ' ')) t = removeSpaces t from rfl,
      ih (fun x hx => h x (by simp [hx]))]

theorem replaceSeps_append (l1 l2 : List Char) :
    replaceSeps (l1 ++ l2) = replaceSeps l1 ++ replaceSeps l2 := by
  simp [replaceSeps]

theorem replaceSeps_cons (c : Char) (l : List Char) :
    replaceSeps (c :: l) =
      (if c = '·' ∨ c = '.' then '•' else c) :: replaceSeps l := rfl

theorem pyStrip_leading (w l : List Char)
    (hw : ∀ c ∈ w, isWsChar c = true)
    (hh : ∀ c, l.head? = some c → isWsChar c = false)
    (hl : ∀ c, l.getLast? = some c → isWsChar c = false) :
    pyStrip (w ++ l) = l := by
  have := pyStrip_pad w l [] hw (by simp) hh hl
  simpa using this

theorem pyStrip_trailing (l w : List Char)
    (hw : ∀ c ∈ w, isWsChar c = true)
    (hh : ∀ c, l.head? = some c → isWsChar c = false)
    (hl : ∀ c, l.getLast? = some c → isWsChar c = false) :
    pyStrip (l ++ w) = l := by
  have := pyStrip_pad [] l w (by simp) hw hh hl
  simpa using this

theorem getLast_concat_H2O (X : List Char) :
    (X ++ ['H', '2', 'O']).getLast? = some 'O' := by
  rw [List.getLast?_append_of_ne_nil X (by simp)]
  rfl

/-- Evaluation of `split_hydrate_formula` on any input of the shape
base ++ separator ++ spaces ++ digits ++ spaces ++ "H2O" (with "H2O" in
exactly this case): the stripped base and the digit value (1 when the
digit run is empty) come back. -/
theorem splitHydrate_construct (b s : String) (sep : Char) (w0 w1 w2 num : List Char)
    (hs : s.data = b.data ++ w0 ++ sep :: (w1 ++ num ++ w2 ++ ['H', '2', 'O']))
    (hsep : sep = '•' ∨ sep = '·' ∨ sep = '.')
    (hbne : b.data ≠ [])
    (hh : ∀ c, b.data.head? = some c → isWsChar c = false)
    (hl : ∀ c, b.data.getLast? = some c → isWsChar c = false)
    (hbsep : ∀ c ∈ b.data, c ≠ '•' ∧ c ≠ '·' ∧ c ≠ '.')
    (hw0 : ∀ c ∈ w0, c = ' ') (hw1 : ∀ c ∈ w1, c = ' ') (hw2 : ∀ c ∈ w2, c = ' ')
    (hnum : ∀ c ∈ num, isDigitChar c = true) :
    splitHydrateFormula s = (b, if num = [] then 1 else digitsToNat num) := by
  have hws0 : ∀ c ∈ w0, isWsChar c = true := fun c hc => by rw [hw0 c hc]; decide
  have hws1 : ∀ c ∈ w1, isWsChar c = true := fun c hc => by rw [hw1 c hc]; decide
  have hws2 : ∀ c ∈ w2, isWsChar c = true := fun c hc => by rw [hw2 c hc]; decide
  have hnumws : ∀ c ∈ num, isWsChar c = false := fun c hc => digit_not_ws c (hnum c hc)
  have hnumdot : ∀ c ∈ num, c ≠ '·' ∧ c ≠ '.' := fun c hc =>
    ⟨digit_ne c _ (hnum c hc) (by decide), digit_ne c _ (hnum c hc) (by decide)⟩
  have hnumnb : '•' ∉ num := fun hm => by
    have h1 := hnum _ hm
    revert h1; decide
  have hnumsp : ∀ c ∈ num, c ≠ ' ' := fun c hc => digit_ne c ' ' (hnum c hc) (by decide)
  have hne : s ≠ "" := by
    intro h0
    rw [h0] at hs
    have : ([] : List Char) = b.data ++ w0 ++ sep :: (w1 ++ num ++ w2 ++ ['H', '2', 'O']) := hs
    rcases List.append_eq_nil.mp this.symm with ⟨_, h2⟩
    cases h2
  -- the whole input has no surrounding whitespace
  have hlastBig : (b.data ++ w0 ++ sep :: (w1 ++ num ++ w2 ++ ['H', '2', 'O'])).getLast?
      = some 'O' := by
    rw [show b.data ++ w0 ++ sep :: (w1 ++ num ++ w2 ++ ['H', '2', 'O'])
        = (b.data ++ w0 ++ sep :: (w1 ++ num ++ w2)) ++ ['H', '2', 'O'] by
      simp [List.append_assoc]]
    exact getLast_concat_H2O _
  have hstrip : pyStrip (b.data ++ w0 ++ sep :: (w1 ++ num ++ w2 ++ ['H', '2', 'O']))
      = b.data ++ w0 ++ sep :: (w1 ++ num ++ w2 ++ ['H', '2', 'O']) := by
    apply pyStrip_eq_self
    · intro c hc
      rw [List.append_assoc, List.head?_append_of_ne_nil b.data hbne] at hc
      exact hh c hc
    · intro c hc
      rw [hlastBig] at hc
      cases hc
      decide
  -- separator normalisation
  have hsepchar : (if sep = '·' ∨ sep = '.' then '•' else sep) = '•' := by
    rcases hsep with h | h | h <;> subst h <;> decide
  have hrep : replaceSeps (b.data ++ w0 ++ sep :: (w1 ++ num ++ w2 ++ ['H', '2', 'O']))
      = b.data ++ w0 ++ '•' :: (w1 ++ num ++ w2 ++ ['H', '2', 'O']) := by
    rw [replaceSeps_append, replaceSeps_append, replaceSeps_cons,
      replaceSeps_append, replaceSeps_append, replaceSeps_append]
    rw [replaceSeps_eq_self b.data (fun c hc => ⟨(hbsep c hc).2.1, (hbsep c hc).2.2⟩),
      replaceSeps_eq_self w0 (fun c hc => by rw [hw0 c hc]; exact ⟨by decide, by decide⟩),
      replaceSeps_eq_self w1 (fun c hc => by rw [hw1 c hc]; exact ⟨by decide, by decide⟩),
      replaceSeps_eq_self w2 (fun c hc => by rw [hw2 c hc]; exact ⟨by decide, by decide⟩),
      replaceSeps_eq_self num hnumdot,
      replaceSeps_eq_self ['H', '2', 'O'] (by decide),
      hsepchar]
  have hmem : '•' ∈ b.data ++ w0 ++ '•' :: (w1 ++ num ++ w2 ++ ['H', '2', 'O']) := by
    simp
  have hnb0 : '•' ∉ b.data ++ w0 := by
    intro hm
    rcases List.mem_append.mp hm with h1 | h1
    · exact (hbsep _ h1).1 rfl
    · have := hw0 _ h1
      revert this; decide
  have hnbTail : '•' ∉ w1 ++ num ++ w2 ++ ['H', '2', 'O'] := by
    intro hm
    rcases List.mem_append.mp hm with h1 | h1
    · rcases List.mem_append.mp h1 with h2 | h2
      · rcases List.mem_append.mp h2 with h3 | h3
        · have := hw1 _ h3; revert this; decide
        · exact hnumnb h3
      · have := hw2 _ h2; revert this; decide
    · revert h1; decide
  -- the parts after splitting and stripping
  have hstripBase : pyStrip (b.data ++ w0) = b.data :=
    pyStrip_trailing b.data w0 hws0 hh hl
  have hstripTail : pyStrip (w1 ++ num ++ w2 ++ ['H', '2', 'O'])
      = (if num = [] then [] else num ++ w2) ++ ['H', '2', 'O'] := by
    cases hn : num with
    | nil =>
      rw [if_pos rfl]
      subst hn
      rw [show w1 ++ [] ++ w2 ++ ['H', '2', 'O'] = (w1 ++ w2) ++ ['H', '2', 'O'] by
        simp]
      rw [pyStrip_leading (w1 ++ w2) ['H', '2', 'O']
        (fun c hc => by
          rcases List.mem_append.mp hc with h1 | h1
          · exact hws1 c h1
          · exact hws2 c h1)
        (by intro c hc; cases hc; decide)
        (by intro c hc; cases hc; decide)]
      simp
    | cons d nd =>
      rw [if_neg (by simp)]
      subst hn
      rw [show w1 ++ (d :: nd) ++ w2 ++ ['H', '2', 'O']
          = w1 ++ ((d :: nd) ++ w2 ++ ['H', '2', 'O']) by simp [List.append_assoc]]
      rw [pyStrip_leading w1 ((d :: nd) ++ w2 ++ ['H', '2', 'O']) hws1
        (by
          intro c hc
          rw [List.append_assoc, List.head?_append_of_ne_nil _ (by simp)] at hc
          cases hc
          exact hnumws d (by simp))
        (by
          intro c hc
          rw [getLast_concat_H2O] at hc
          cases hc
          decide)]
  -- water count of the tail part
  have hwater : findWater [(if num = [] then [] else num ++ w2) ++ ['H', '2', 'O']]
      = if num = [] then 1 else digitsToNat num := by
    cases hn : num with
    | nil =>
      rw [if_pos rfl, if_pos rfl]
      rfl
    | cons d nd =>
      subst hn
      rw [if_neg (by simp), if_neg (by simp)]
      have hrs : removeSpaces (((d :: nd) ++ w2) ++ ['H', '2', 'O'])
          = (d :: nd) ++ ['H', '2', 'O'] := by
        rw [removeSpaces_append, removeSpaces_append,
          removeSpaces_no_spaces (d :: nd) hnumsp,
          removeSpaces_all_spaces w2 hw2,
          removeSpaces_no_spaces ['H', '2', 'O'] (by decide)]
        simp
      have hmatch : matchH2OAt ((d :: nd) ++ ['H', '2', 'O'])
          = some (digitsToNat (d :: nd)) := by
        unfold matchH2OAt
        rw [takeWhile_append_all isDigitChar (d :: nd) ['H', '2', 'O'] hnum,
          takeWhile_cons_false isDigitChar 'H' ['2', 'O'] (by decide),
          List.append_nil, List.drop_left]
        show (some (if d :: nd = [] then 1 else digitsToNat (d :: nd)) : Option Nat)
            = some (digitsToNat (d :: nd))
        rw [if_neg (by simp)]
      show (match searchH2O (removeSpaces (((d :: nd) ++ w2) ++ ['H', '2', 'O'])) with
        | some w => w
        | none => findWater []) = digitsToNat (d :: nd)
      rw [hrs]
      show (match (match matchH2OAt (d :: (nd ++ ['H', '2', 'O'])) with
          | some w => some w
          | none => searchH2O (nd ++ ['H', '2', 'O'])) with
        | some w => w
        | none => findWater []) = digitsToNat (d :: nd)
      rw [show (d :: (nd ++ ['H', '2', 'O'])) = (d :: nd) ++ ['H', '2', 'O'] from rfl,
        hmatch]
  -- assemble
  unfold splitHydrateFormula
  rw [if_neg hne, hs, hstrip, hrep, if_pos hmem,
    splitSep_append (b.data ++ w0) _ hnb0, splitSep_not_mem _ hnbTail,
    List.map_cons, List.map_cons, List.map_nil, hstripBase, hstripTail,
    List.filter_cons, List.filter_cons, List.filter_nil,
    decide_eq_true hbne, if_pos rfl,
    decide_eq_true (show (if num = [] then [] else num ++ w2) ++ ['H', '2', 'O'] ≠ []
      by simp), if_pos rfl]
  show ((⟨b.data⟩ : String),
      findWater [(if num = [] then [] else num ++ w2) ++ ['H', '2', 'O']])
    = (b, if num = [] then 1 else digitsToNat num)
  rw [hwater]

/-- C5 (counterexample): `split_hydrate_formula` in utils.py matches the
water tail with the case-SENSITIVE pattern `(?:(\d+))?H2O\b`, so a
lowercase `h2o` is not recognised: the water count comes back 0, not 6. -/
theorem splitHydrate_lowercase_h2o_not_recognized :
    splitHydrateFormula "CoCl2 • 6 h2o" = ("CoCl2", 0) ∧
      splitHydrateFormula "CoCl2 • 6 h2o" ≠ ("CoCl2", 6) := by
  constructor
  · rfl
  · decide

/-- C5 (amended): for every whitespace-trimmed base holding no separator
character, every separator among the bullet, the middle dot and the
literal dot, and every water multiplier n ≥ 1 (or omitted, meaning 1)
written with `H2O` in exactly that letter case, `split_hydrate_formula`
of base ++ sep ++ n ++ "H2O" returns (base, n), tolerating space
characters after the base, around the number and before `H2O`. -/
theorem splitHydrate_separator_forms (b : String) (sep : Char)
    (w0 w1 w2 : List Char) (n : Option Nat)
    (hsep : sep = '•' ∨ sep = '·' ∨ sep = '.')
    (hbne : b.data ≠ [])
    (hh : ∀ c, b.data.head? = some c → isWsChar c = false)
    (hl : ∀ c, b.data.getLast? = some c → isWsChar c = false)
    (hbsep : ∀ c ∈ b.data, c ≠ '•' ∧ c ≠ '·' ∧ c ≠ '.')
    (hw0 : ∀ c ∈ w0, c = ' ') (hw1 : ∀ c ∈ w1, c = ' ') (hw2 : ∀ c ∈ w2, c = ' ') :
    splitHydrateFormula
        ⟨b.data ++ w0 ++ sep ::
          (w1 ++ (match n with | none => [] | some m => natNumeral m) ++ w2 ++
            ['H', '2', 'O'])⟩
      = (b, match n with | none => 1 | some m => m) := by
  cases n with
  | none =>
    have h1 := splitHydrate_construct b
      ⟨b.data ++ w0 ++ sep :: (w1 ++ [] ++ w2 ++ ['H', '2', 'O'])⟩
      sep w0 w1 w2 [] rfl hsep hbne hh hl hbsep hw0 hw1 hw2 (by simp)
    rw [if_pos rfl] at h1
    exact h1
  | some m =>
    have h1 := splitHydrate_construct b
      ⟨b.data ++ w0 ++ sep :: (w1 ++ natNumeral m ++ w2 ++ ['H', '2', 'O'])⟩
      sep w0 w1 w2 (natNumeral m) rfl hsep hbne hh hl hbsep hw0 hw1 hw2
      (natNumeral_all_digits m)
    rw [if_neg (natNumeral_ne_nil m), digitsToNat_natNumeral] at h1
    exact h1

/-- Witness for the C5 amended theorem: "CoCl2" with the middle-dot
separator, a space before the number and n = 6. -/
theorem splitHydrate_separator_forms_witness :
    splitHydrateFormula
        ⟨"CoCl2".data ++ [] ++ '·' :: ([' '] ++ natNumeral 6 ++ [] ++ ['H', '2', 'O'])⟩
      = ("CoCl2", 6) := by
  have h := splitHydrate_separator_forms "CoCl2" '·' [] [' '] [] (some 6)
    (Or.inr (Or.inl rfl)) (by decide)
    (by
      intro c hc
      rw [show ("CoCl2".data.head? = some 'C') from rfl] at hc
      cases hc
      decide)
    (by
      intro c hc
      rw [show ("CoCl2".data.getLast? = some '2') from rfl] at hc
      cases hc
      decide)
    (by decide) (by decide) (by decide) (by decide)
  exact h

/-! ## RecordScoring and AttemptCache (compound_db_builder/pubchem_cache.py,
compound_db_builder/step_04_build_parquet.py, src/optithor/compound_db.py) -/

/-- One attempt-cache record (a row of the call-outcome data frame).
`none` models a missing/NaN cell, `some` a present value. -/
structure CacheRow where
  queryName : String
  status : String
  cid : Option String
  name : Option String
  formula : Option String
  mw : Option String
  smiles : Option String
deriving DecidableEq, Repr

instance : Inhabited CacheRow :=
  ⟨⟨"", "", none, none, none, none, none⟩⟩

/-- Python `s.replace(".0", "")`: remove every (leftmost-first,
non-overlapping) occurrence of ".0". -/
def stripDot0 : List Char → List Char
  | '.' :: '0' :: t => stripDot0 t
  | c :: t => c :: stripDot0 t
  | [] => []

/-- `_norm_cid` of pubchem_cache.py: trim; empty and "none" (after
lower-casing) become absent; a value ending in ".0" has every ".0"
removed. -/
def normCid (v : Option String) : Option String :=
  match v with
  | none => none
  | some s0 =>
    let s := strip s0
    if s = "" then none
    else
      let s1 := if s.data.length ≥ 2 ∧ s.data.drop (s.data.length - 2) = ['.', '0']
        then (⟨stripDot0 s.data⟩ : String) else s
      if lower s1 = "none" then none else some s1

/-- `_not_empty` of pubchem_cache.py: present, and the trimmed text is
neither empty nor "nan" case-insensitively. -/
def notEmptyOpt (v : Option String) : Bool :=
  match v with
  | none => false
  | some s => decide (strip s ≠ "") && decide (lower (strip s) ≠ "nan")

/-- `_score_row` of pubchem_cache.py: the completeness/success score used
by the attempt-cache merge and by best_per_cid. -/
def scoreRow (r : CacheRow) : Nat :=
  (if lower (strip r.status) = "ok" then 10000 else 0)
    + (if (normCid r.cid).isSome then 2000 else 0)
    + (if notEmptyOpt r.name then 400 else 0)
    + (if notEmptyOpt r.formula then 400 else 0)
    + (if notEmptyOpt r.mw then 400 else 0)
    + (if notEmptyOpt r.smiles then 50 else 0)

/-- `_score_best_per_cid_row` of step_04_build_parquet.py: the score the
parquet build uses to pick the best row per identifier.  No identifier
term; name/formula/weight weigh 500, the structure string 100; presence
tests are `pd.notna` plus (for the strings) non-blank after strip. -/
def scoreBestPerCidRow (r : CacheRow) : Nat :=
  (if lower (strip r.status) = "ok" then 10000 else 0)
    + (if (match r.name with | none => false | some s => decide (strip s ≠ ""))
        then 500 else 0)
    + (if (match r.formula with | none => false | some s => decide (strip s ≠ ""))
        then 500 else 0)
    + (if r.mw.isSome then 500 else 0)
    + (if (match r.smiles with | none => false | some s => decide (strip s ≠ ""))
        then 100 else 0)

/-- `df_all["Query Name"] = df_all["Query Name"].astype(str).str.strip()`:
the stored query name is trimmed in place. -/
def normQName (r : CacheRow) : CacheRow := { r with queryName := strip r.queryName }

/-- `_qkey`: the lower-cased (already trimmed) query name. -/
def qkey (r : CacheRow) : String := lower r.queryName

/-- One comparison step for picking the kept row: a later row replaces
the current best when its score is at least as large, which is exactly
what sorting by (score descending, position descending) and keeping the
first achieves. -/
def stepBest (a x : CacheRow) : CacheRow :=
  if scoreRow a ≤ scoreRow x then x else a

/-- The row `sort_values(by=[score, idx], ascending=[False, False])` +
`drop_duplicates(keep="first")` keeps out of `r :: l`: the last row
attaining the maximal score. -/
def bestOf (r : CacheRow) (l : List CacheRow) : CacheRow :=
  l.foldl stepBest r

/-- The row the dedup keeps for key `k` out of `rows`. -/
def pickRow (k : String) (rows : List CacheRow) : CacheRow :=
  match rows.filter (fun r => decide (qkey r = k)) with
  | [] => default
  | h :: t => bestOf h t

/-- The group keys in the order the sorted, deduplicated frame leaves
them: ascending. -/
def sortedKeys (rows : List CacheRow) : List String :=
  ((rows.map qkey).dedup).insertionSort (· ≤ ·)

/-- `merge_cache` of pubchem_cache.py: concatenate cached and new rows,
trim the query-name column, and keep the best-scoring row per normalized
query key (ties broken towards the latest row); the resulting frame is
ordered by ascending key. -/
def mergeCache (cached new : List CacheRow) : List CacheRow :=
  (sortedKeys ((cached ++ new).map normQName)).map
    (fun k => pickRow k ((cached ++ new).map normQName))

/-! ### Strip idempotence -/

theorem head_dropWhile_false (p : Char → Bool) (l : List Char) (c : Char)
    (h : (l.dropWhile p).head? = some c) : p c = false := by
  induction l with
  | nil => cases h
  | cons a t ih =>
    by_cases hp : p a
    · rw [List.dropWhile_cons, if_pos hp] at h
      exact ih h
    · rw [List.dropWhile_cons, if_neg hp] at h
      cases h
      exact Bool.eq_false_iff.mpr hp

theorem getLast?_dropWhile (p : Char → Bool) (l : List Char)
    (h : l.dropWhile p ≠ []) : (l.dropWhile p).getLast? = l.getLast? := by
  induction l with
  | nil => rfl
  | cons a t ih =>
    by_cases hp : p a
    · rw [List.dropWhile_cons, if_pos hp] at h ⊢
      rw [ih h]
      have ht : t ≠ [] := by
        intro h0
        rw [h0] at h
        exact h rfl
      rw [show a :: t = [a] ++ t from rfl, List.getLast?_append_of_ne_nil [a] ht]
    · rw [List.dropWhile_cons, if_neg hp]

theorem pyStrip_ends (l : List Char) :
    (∀ c, (pyStrip l).head? = some c → isWsChar c = false) ∧
      (∀ c, (pyStrip l).getLast? = some c → isWsChar c = false) := by
  constructor
  · intro c hc
    unfold pyStrip at hc
    rw [List.head?_reverse] at hc
    have hne : List.dropWhile isWsChar (List.dropWhile isWsChar l).reverse ≠ [] := by
      intro h0
      rw [h0] at hc
      cases hc
    rw [getLast?_dropWhile _ _ hne, List.getLast?_reverse] at hc
    exact head_dropWhile_false _ _ _ hc
  · intro c hc
    unfold pyStrip at hc
    rw [List.getLast?_reverse] at hc
    exact head_dropWhile_false _ _ _ hc

theorem pyStrip_idem (l : List Char) : pyStrip (pyStrip l) = pyStrip l :=
  pyStrip_eq_self (pyStrip l) (pyStrip_ends l).1 (pyStrip_ends l).2

theorem strip_idem (s : String) : strip (strip s) = strip s := by
  unfold strip
  rw [show (⟨pyStrip s.data⟩ : String).data = pyStrip s.data from rfl, pyStrip_idem]

theorem normQName_idem (r : CacheRow) : normQName (normQName r) = normQName r := by
  unfold normQName
  rw [strip_idem]

/-! ### bestOf: the kept row is the last one attaining the maximal score -/

theorem bestOf_append (r : CacheRow) (l1 l2 : List CacheRow) :
    bestOf r (l1 ++ l2) = bestOf (bestOf r l1) l2 :=
  List.foldl_append _ _ l1 l2

theorem scoreRow_le_bestOf (l : List CacheRow) :
    ∀ r, scoreRow r ≤ scoreRow (bestOf r l) := by
  induction l with
  | nil => intro r; exact Nat.le_refl _
  | cons x xs ih =>
    intro r
    show scoreRow r ≤ scoreRow (bestOf (stepBest r x) xs)
    refine Nat.le_trans ?_ (ih (stepBest r x))
    unfold stepBest
    by_cases h : scoreRow r ≤ scoreRow x
    · rw [if_pos h]; exact h
    · rw [if_neg h]

theorem bestOf_mem (l : List CacheRow) :
    ∀ r, bestOf r l = r ∨ bestOf r l ∈ l := by
  induction l with
  | nil => intro r; exact Or.inl rfl
  | cons x xs ih =>
    intro r
    show bestOf (stepBest r x) xs = r ∨ bestOf (stepBest r x) xs ∈ x :: xs
    rcases ih (stepBest r x) with h | h
    · rw [h]
      unfold stepBest
      by_cases hc : scoreRow r ≤ scoreRow x
      · rw [if_pos hc]
        exact Or.inr (List.mem_cons_self _ _)
      · rw [if_neg hc]
        exact Or.inl rfl
    · exact Or.inr (List.mem_cons_of_mem _ h)

theorem bestOf_cons (r x : CacheRow) (xs : List CacheRow) :
    bestOf r (x :: xs) = bestOf (stepBest r x) xs := rfl

theorem stepBest_of_le (a x : CacheRow) (h : scoreRow a ≤ scoreRow x) :
    stepBest a x = x := by unfold stepBest; rw [if_pos h]

theorem stepBest_of_gt (a x : CacheRow) (h : ¬scoreRow a ≤ scoreRow x) :
    stepBest a x = a := by unfold stepBest; rw [if_neg h]

theorem bestOf_idem (l : List CacheRow) :
    ∀ r, bestOf (bestOf r l) l = bestOf r l := by
  induction l with
  | nil => intro r; rfl
  | cons x xs ih =>
    intro r
    rw [bestOf_cons r x xs, bestOf_cons (bestOf (stepBest r x) xs) x xs]
    have hm : scoreRow (stepBest r x) ≤ scoreRow (bestOf (stepBest r x) xs) :=
      scoreRow_le_bestOf xs (stepBest r x)
    by_cases hx : scoreRow (bestOf (stepBest r x) xs) ≤ scoreRow x
    · by_cases hrx : scoreRow r ≤ scoreRow x
      · rw [stepBest_of_le _ _ hx, stepBest_of_le _ _ hrx]
      · exfalso
        have h1 : scoreRow x < scoreRow r := Nat.lt_of_not_le hrx
        have hm2 : scoreRow r ≤ scoreRow (bestOf (stepBest r x) xs) := by
          nth_rewrite 1 [stepBest_of_gt _ _ hrx] at hm
          exact hm
        omega
    · rw [stepBest_of_gt _ _ hx]
      exact ih (stepBest r x)

theorem bestOf_self_cons (h : CacheRow) (t : List CacheRow) :
    bestOf h (h :: t) = bestOf h t := by
  show bestOf (stepBest h h) t = bestOf h t
  rw [show stepBest h h = h by unfold stepBest; by_cases hc : scoreRow h ≤ scoreRow h
      <;> simp [hc]]

theorem bestOf_remerge (gA gB : List CacheRow) (h : CacheRow) (t : List CacheRow)
    (hg : gA ++ gB = h :: t) : bestOf (bestOf h t) gB = bestOf h t := by
  cases gA with
  | nil =>
    have hgb : gB = h :: t := by simpa using hg
    rw [hgb]
    have h1 := bestOf_idem (h :: t) h
    rw [bestOf_self_cons] at h1
    exact h1
  | cons a as =>
    have ha : a = h := (List.cons.injEq a (as ++ gB) h t).mp hg |>.1
    have ht : t = as ++ gB := ((List.cons.injEq a (as ++ gB) h t).mp hg |>.2).symm
    subst ha
    subst ht
    rw [bestOf_append]
    exact bestOf_idem gB (bestOf a as)

/-! ### Keys and groups of the merged frame -/

theorem mem_sortedKeys (rows : List CacheRow) (s : String) :
    s ∈ sortedKeys rows ↔ s ∈ rows.map qkey := by
  unfold sortedKeys
  rw [(List.perm_insertionSort _ _).mem_iff, List.mem_dedup]

theorem sortedKeys_nodup (rows : List CacheRow) : (sortedKeys rows).Nodup :=
  ((List.perm_insertionSort _ _).nodup_iff).mpr (List.nodup_dedup _)

theorem sortedKeys_congr (l1 l2 : List CacheRow)
    (h : ∀ s, s ∈ l1.map qkey ↔ s ∈ l2.map qkey) : sortedKeys l1 = sortedKeys l2 := by
  unfold sortedKeys
  have hperm : List.Perm (((l1.map qkey).dedup).insertionSort (· ≤ ·))
      (((l2.map qkey).dedup).insertionSort (· ≤ ·)) := by
    refine (List.perm_insertionSort _ _).trans
      (List.Perm.trans ?_ (List.perm_insertionSort _ _).symm)
    refine (List.perm_ext_iff_of_nodup (List.nodup_dedup _) (List.nodup_dedup _)).mpr ?_
    intro s
    rw [List.mem_dedup, List.mem_dedup]
    exact h s
  exact List.eq_of_perm_of_sorted hperm
    (List.sorted_insertionSort _ _) (List.sorted_insertionSort _ _)

theorem group_ne_nil (rows : List CacheRow) (k : String) (hk : k ∈ sortedKeys rows) :
    rows.filter (fun r => decide (qkey r = k)) ≠ [] := by
  rw [mem_sortedKeys] at hk
  rcases List.mem_map.mp hk with ⟨r, hr, hq⟩
  intro h0
  have hmem : r ∈ rows.filter (fun r => decide (qkey r = k)) :=
    List.mem_filter.mpr ⟨hr, decide_eq_true hq⟩
  rw [h0] at hmem
  cases hmem

theorem qkey_pickRow (rows : List CacheRow) (k : String)
    (hne : rows.filter (fun r => decide (qkey r = k)) ≠ []) :
    qkey (pickRow k rows) = k := by
  unfold pickRow
  cases hf : rows.filter (fun r => decide (qkey r = k)) with
  | nil => exact absurd hf hne
  | cons h t =>
    have hmem : bestOf h t ∈ h :: t := by
      rcases bestOf_mem t h with h1 | h1
      · rw [h1]; exact List.mem_cons_self _ _
      · exact List.mem_cons_of_mem _ h1
    have hmem2 : bestOf h t ∈ rows.filter (fun r => decide (qkey r = k)) := by
      rw [hf]; exact hmem
    exact of_decide_eq_true (List.mem_filter.mp hmem2).2

theorem pickRow_mem (rows : List CacheRow) (k : String)
    (hne : rows.filter (fun r => decide (qkey r = k)) ≠ []) :
    pickRow k rows ∈ rows := by
  unfold pickRow
  cases hf : rows.filter (fun r => decide (qkey r = k)) with
  | nil => exact absurd hf hne
  | cons h t =>
    have hmem : bestOf h t ∈ h :: t := by
      rcases bestOf_mem t h with h1 | h1
      · rw [h1]; exact List.mem_cons_self _ _
      · exact List.mem_cons_of_mem _ h1
    have hmem2 : bestOf h t ∈ rows.filter (fun r => decide (qkey r = k)) := by
      rw [hf]; exact hmem
    exact List.mem_of_mem_filter hmem2

theorem pickRow_fixed (rows0 rows : List CacheRow) (k : String)
    (hrows : rows = rows0.map normQName)
    (hne : rows.filter (fun r => decide (qkey r = k)) ≠ []) :
    normQName (pickRow k rows) = pickRow k rows := by
  subst hrows
  have hm := pickRow_mem (rows0.map normQName) k hne
  rcases List.mem_map.mp hm with ⟨y, _, hy⟩
  rw [← hy, normQName_idem]

theorem filter_map_picks (ks : List String) (rows : List CacheRow) (k : String)
    (hnd : ks.Nodup) (hk : k ∈ ks)
    (hkey : ∀ k2 ∈ ks, qkey (pickRow k2 rows) = k2) :
    (ks.map (fun k2 => pickRow k2 rows)).filter (fun r => decide (qkey r = k))
      = [pickRow k rows] := by
  induction ks with
  | nil => cases hk
  | cons a as ih =>
    rw [List.map_cons, List.filter_cons]
    have hqa : qkey (pickRow a rows) = a := hkey a (List.mem_cons_self _ _)
    by_cases hak : a = k
    · subst hak
      rw [show decide (qkey (pickRow a rows) = a) = true from decide_eq_true hqa,
        if_pos rfl]
      have hrest : (as.map (fun k2 => pickRow k2 rows)).filter
          (fun r => decide (qkey r = a)) = [] := by
        rw [List.filter_eq_nil_iff]
        intro r hr
        rcases List.mem_map.mp hr with ⟨k2, hk2, hr2⟩
        rw [← hr2]
        have h2 : qkey (pickRow k2 rows) = k2 :=
          hkey k2 (List.mem_cons_of_mem _ hk2)
        rw [show decide (qkey (pickRow k2 rows) = a) = false from
          decide_eq_false (by
            rw [h2]
            intro h3
            exact ((List.nodup_cons.mp hnd).1 (h3 ▸ hk2)))]
        simp
      rw [hrest]
    · rw [show decide (qkey (pickRow a rows) = k) = false from
        decide_eq_false (by rw [hqa]; exact hak)]
      simp only [Bool.false_eq_true, if_false]
      refine ih (List.nodup_cons.mp hnd).2 ?_
        (fun k2 h2 => hkey k2 (List.mem_cons_of_mem _ h2))
      rcases List.mem_cons.mp hk with h1 | h1
      · exact absurd h1.symm hak
      · exact h1

/-- C4: merging the same new outcome set twice is idempotent:
merge(merge(A, B), B) = merge(A, B). -/
theorem mergeCache_idem (cached new : List CacheRow) :
    mergeCache (mergeCache cached new) new = mergeCache cached new := by
  have hMfix : (mergeCache cached new).map normQName = mergeCache cached new := by
    rw [show (mergeCache cached new).map normQName = (mergeCache cached new).map id from
      List.map_congr_left (by
        intro x hx
        rcases List.mem_map.mp hx with ⟨k, hk, hx2⟩
        rw [← hx2]
        exact pickRow_fixed (cached ++ new) _ k rfl (group_ne_nil _ _ hk))]
    exact List.map_id _
  have hall2 : ((mergeCache cached new ++ new).map normQName)
      = mergeCache cached new ++ new.map normQName := by
    rw [List.map_append, hMfix]
  have hkeysM : (mergeCache cached new).map qkey
      = sortedKeys ((cached ++ new).map normQName) := by
    unfold mergeCache
    rw [List.map_map]
    rw [show (sortedKeys ((cached ++ new).map normQName)).map
        (qkey ∘ fun k => pickRow k ((cached ++ new).map normQName))
        = (sortedKeys ((cached ++ new).map normQName)).map id from
      List.map_congr_left (fun k hk => qkey_pickRow _ _ (group_ne_nil _ _ hk))]
    exact List.map_id _
  have hkeys : ∀ s, s ∈ ((mergeCache cached new ++ new).map normQName).map qkey
      ↔ s ∈ ((cached ++ new).map normQName).map qkey := by
    intro s
    rw [hall2, List.map_append, hkeysM]
    constructor
    · intro hs
      rcases List.mem_append.mp hs with h1 | h1
      · exact (mem_sortedKeys _ _).mp h1
      · rw [show (cached ++ new).map normQName
            = cached.map normQName ++ new.map normQName from List.map_append _ _ _,
          List.map_append]
        exact List.mem_append_right _ h1
    · intro hs
      exact List.mem_append_left _ ((mem_sortedKeys _ _).mpr hs)
  have hsk : sortedKeys ((mergeCache cached new ++ new).map normQName)
      = sortedKeys ((cached ++ new).map normQName) := sortedKeys_congr _ _ hkeys
  have hpick : ∀ k ∈ sortedKeys ((cached ++ new).map normQName),
      pickRow k ((mergeCache cached new ++ new).map normQName)
        = pickRow k ((cached ++ new).map normQName) := by
    intro k hk
    rw [hall2]
    have hfM : (mergeCache cached new).filter (fun r => decide (qkey r = k))
        = [pickRow k ((cached ++ new).map normQName)] := by
      unfold mergeCache
      exact filter_map_picks _ _ _ (sortedKeys_nodup _) hk
        (fun k2 h2 => qkey_pickRow _ _ (group_ne_nil _ _ h2))
    have hsplit : ((cached ++ new).map normQName).filter (fun r => decide (qkey r = k))
        = (cached.map normQName).filter (fun r => decide (qkey r = k))
          ++ (new.map normQName).filter (fun r => decide (qkey r = k)) := by
      rw [List.map_append, List.filter_append]
    unfold pickRow
    rw [List.filter_append, hfM]
    cases hg : ((cached ++ new).map normQName).filter (fun r => decide (qkey r = k)) with
    | nil => exact absurd hg (group_ne_nil _ _ hk)
    | cons h t =>
      have hpk : pickRow k ((cached ++ new).map normQName) = bestOf h t := by
        unfold pickRow
        rw [hg]
      rw [hpk]
      show bestOf (bestOf h t)
          ((new.map normQName).filter (fun r => decide (qkey r = k))) = bestOf h t
      apply bestOf_remerge ((cached.map normQName).filter (fun r => decide (qkey r = k)))
      rw [← hsplit]
      exact hg
  show (sortedKeys ((mergeCache cached new ++ new).map normQName)).map
      (fun k => pickRow k ((mergeCache cached new ++ new).map normQName))
    = mergeCache cached new
  rw [hsk, List.map_congr_left (fun k hk => hpick k hk)]
  rfl

/-- The kept row splits its group: everything before it scores no higher,
everything after it scores strictly lower — i.e. among tied best rows the
LAST one is kept. -/
theorem bestOf_split (l : List CacheRow) :
    ∀ r, ∃ l1 l2, r :: l = l1 ++ bestOf r l :: l2
      ∧ (∀ x ∈ l1, scoreRow x ≤ scoreRow (bestOf r l))
      ∧ (∀ x ∈ l2, scoreRow x < scoreRow (bestOf r l)) := by
  induction l with
  | nil =>
    intro r
    exact ⟨[], [], rfl, by simp, by simp⟩
  | cons x xs ih =>
    intro r
    rw [bestOf_cons]
    by_cases hrx : scoreRow r ≤ scoreRow x
    · rw [stepBest_of_le _ _ hrx]
      rcases ih x with ⟨m1, m2, hsp, hle, hlt⟩
      refine ⟨r :: m1, m2, ?_, ?_, hlt⟩
      · rw [List.cons_append, ← hsp]
      · intro y hy
        rcases List.mem_cons.mp hy with h1 | h1
        · rw [h1]
          exact Nat.le_trans hrx (scoreRow_le_bestOf xs x)
        · exact hle y h1
    · rw [stepBest_of_gt _ _ hrx]
      rcases ih r with ⟨m1, m2, hsp, hle, hlt⟩
      cases m1 with
      | nil =>
        rw [List.nil_append] at hsp
        injection hsp with hb hm2
        refine ⟨[], x :: m2, ?_, by simp, ?_⟩
        · rw [List.nil_append, ← hb, ← hm2]
        · intro y hy
          rcases List.mem_cons.mp hy with h1 | h1
          · rw [h1, ← hb]
            exact Nat.lt_of_not_le hrx
          · exact hlt y h1
      | cons a m1' =>
        rw [List.cons_append] at hsp
        injection hsp with ha hxs
        refine ⟨r :: x :: m1', m2, ?_, ?_, hlt⟩
        · rw [List.cons_append, List.cons_append, ← hxs]
        · intro y hy
          have hrb : scoreRow r ≤ scoreRow (bestOf r xs) := by
            have := hle a (List.mem_cons_self _ _)
            rw [← ha] at this
            exact this
          rcases List.mem_cons.mp hy with h1 | h1
          · rw [h1]; exact hrb
          · rcases List.mem_cons.mp h1 with h2 | h2
            · rw [h2]
              exact Nat.le_trans (Nat.le_of_lt (Nat.lt_of_not_le hrx)) hrb
            · exact hle y (List.mem_cons_of_mem _ h2)

/-- C3 (counterexample): two cached/new records with the same normalized
query and equal scores (status "ok" vs "OK" both score 10000): the merge
keeps the LATER record, not the earliest, because the tie-break sorts the
insertion index descending before `drop_duplicates(keep="first")`. -/
theorem mergeCache_tie_earliest_false :
    mergeCache [(⟨"q", "ok", none, none, none, none, none⟩ : CacheRow)]
        [(⟨"q", "OK", none, none, none, none, none⟩ : CacheRow)]
      = [(⟨"q", "OK", none, none, none, none, none⟩ : CacheRow)] ∧
    (⟨"q", "OK", none, none, none, none, none⟩ : CacheRow)
      ≠ (⟨"q", "ok", none, none, none, none, none⟩ : CacheRow) := by
  constructor
  · rfl
  · decide

/-- C3 (amended): in every dedup/merge by normalized query, the record
kept for a key is in the merge output, and it splits its concatenated
input group so that every record before it scores ≤ it and every record
after it scores strictly less: on ties the LATEST record in insertion
order wins. -/
theorem mergeCache_tie_keeps_latest (cached new : List CacheRow) (k : String)
    (hk : k ∈ sortedKeys ((cached ++ new).map normQName)) :
    pickRow k ((cached ++ new).map normQName) ∈ mergeCache cached new ∧
    ∃ g1 g2,
      ((cached ++ new).map normQName).filter (fun r => decide (qkey r = k))
        = g1 ++ pickRow k ((cached ++ new).map normQName) :: g2
      ∧ (∀ x ∈ g1, scoreRow x ≤ scoreRow (pickRow k ((cached ++ new).map normQName)))
      ∧ (∀ x ∈ g2, scoreRow x < scoreRow (pickRow k ((cached ++ new).map normQName))) := by
  constructor
  · exact List.mem_map.mpr ⟨k, hk, rfl⟩
  · cases hg : ((cached ++ new).map normQName).filter (fun r => decide (qkey r = k)) with
    | nil => exact absurd hg (group_ne_nil _ _ hk)
    | cons h t =>
      have hpk : pickRow k ((cached ++ new).map normQName) = bestOf h t := by
        unfold pickRow
        rw [hg]
      rcases bestOf_split t h with ⟨g1, g2, hsp, hle, hlt⟩
      refine ⟨g1, g2, ?_, ?_, ?_⟩
      · rw [hpk]; exact hsp
      · intro x hx; rw [hpk]; exact hle x hx
      · intro x hx; rw [hpk]; exact hlt x hx

/-- Witness for the C3 amended theorem at the two-record tie. -/
theorem mergeCache_tie_keeps_latest_witness :
    pickRow "q" (([(⟨"q", "ok", none, none, none, none, none⟩ : CacheRow)]
        ++ [(⟨"q", "OK", none, none, none, none, none⟩ : CacheRow)]).map normQName)
      ∈ mergeCache [(⟨"q", "ok", none, none, none, none, none⟩ : CacheRow)]
          [(⟨"q", "OK", none, none, none, none, none⟩ : CacheRow)] :=
  (mergeCache_tie_keeps_latest
    [(⟨"q", "ok", none, none, none, none, none⟩ : CacheRow)]
    [(⟨"q", "OK", none, none, none, none, none⟩ : CacheRow)] "q" (by decide)).1

/-- C2 (counterexample): the scoring is NOT identical across the dedup
sites.  A record holding only a structure string scores 50 under the
cache `_score_row` but 100 under the parquet build's
`_score_best_per_cid_row`; a record holding only an identifier scores
2000 under the former and 0 under the latter, so the two sites rank
this pair in opposite orders. -/
theorem scoring_sites_disagree :
    scoreRow (⟨"q", "failed", none, none, none, none, some "CC"⟩ : CacheRow)
        < scoreRow (⟨"q", "failed", some "17", none, none, none, none⟩ : CacheRow) ∧
      scoreBestPerCidRow (⟨"q", "failed", some "17", none, none, none, none⟩ : CacheRow)
        < scoreBestPerCidRow (⟨"q", "failed", none, none, none, none, some "CC"⟩ : CacheRow) := by
  decide

/-- C2 (amended): the cache-layer score `_score_row` carries exactly the
claimed weights — each field, when previously absent, adds its weight:
success status +10000, identifier +2000, display name +400, formula
+400, molar mass +400, structure string +50.  (The parquet build and the
runtime table dedup use different scores, see the counterexample.) -/
theorem scoreRow_weights (r : CacheRow) :
    (lower (strip r.status) ≠ "ok" →
      scoreRow { r with status := "ok" } = scoreRow r + 10000)
    ∧ (normCid r.cid = none →
      scoreRow { r with cid := some "17" } = scoreRow r + 2000)
    ∧ (notEmptyOpt r.name = false →
      scoreRow { r with name := some "glucose" } = scoreRow r + 400)
    ∧ (notEmptyOpt r.formula = false →
      scoreRow { r with formula := some "C6H12O6" } = scoreRow r + 400)
    ∧ (notEmptyOpt r.mw = false →
      scoreRow { r with mw := some "180.16" } = scoreRow r + 400)
    ∧ (notEmptyOpt r.smiles = false →
      scoreRow { r with smiles := some "OCC1OC(O)C(O)C(O)C1O" } = scoreRow r + 50) := by
  refine ⟨fun h => ?_, fun h => ?_, fun h => ?_, fun h => ?_, fun h => ?_, fun h => ?_⟩
    <;> simp +decide [scoreRow, h] <;> omega

/-- Witness for the C2 amended theorem: adding a structure string to an
otherwise empty record raises the score by exactly 50. -/
theorem scoreRow_weights_witness :
    scoreRow (⟨"glucose", "", none, none, none, none,
        some "OCC1OC(O)C(O)C(O)C1O"⟩ : CacheRow)
      = scoreRow (⟨"glucose", "", none, none, none, none, none⟩ : CacheRow) + 50 :=
  ((scoreRow_weights (⟨"glucose", "", none, none, none, none, none⟩ : CacheRow)
    ).2.2.2.2.2) (by decide)

/-! ## CompoundTable schema derivation (src/optithor/paths.py `ensure_db_schema`) -/

/-- One row of the canonical compound table.  String columns are already
`astype(str)`-coerced; the numeric columns carry `none` for NaN.  Masses
are embedded as rationals. -/
structure DbRow where
  cid : String
  name : String
  formula : String
  formulaAnhydrous : String
  mw : Option ℚ
  mwAnhydrous : Option ℚ
deriving DecidableEq, Repr

instance : Inhabited DbRow := ⟨⟨"", "", "", "", none, none⟩⟩

/-- `molar_mass_h2o` of utils.py: the molar mass of water; embedded as
the hard fallback constant 18.01528 the function guarantees. -/
def molarMassH2O : ℚ := 18.01528

/-- `needs_formula`: the anhydrous formula cell is blank after strip. -/
def needsF (r : DbRow) : Bool := decide (strip r.formulaAnhydrous = "")

/-- `needs_mw`: the anhydrous molar-mass cell is NaN. -/
def needsM (r : DbRow) : Bool := decide (r.mwAnhydrous = none)

/-- `needs_any = needs_formula | needs_mw`. -/
def needsA (r : DbRow) : Bool := needsF r || needsM r

/-- The row-wise application of the two `out.loc[...] = ...` assignments of
`ensure_db_schema`: the k-th row needing a formula receives the k-th value
of `fvals` (the TRUNCATED bases list — this mirrors the positional
assignment in the source and is what misaligns rows); a row needing a
molar mass receives `MW - waterCount * h2o` with its own hydrate water
count.  An exhausted `fvals` leaves the formula unchanged (unreachable
from `ensureDbSchema`). -/
def mwMinusWater (r : DbRow) : Option ℚ :=
  r.mw.map (fun m => m - ((splitHydrateFormula r.formula).2 : ℚ) * molarMassH2O)

def schemaFix (fvals : List String) : List DbRow → List DbRow
  | [] => []
  | r :: rs =>
    if needsF r then
      match fvals with
      | [] => r :: schemaFix [] rs
      | v :: vs =>
        (if needsM r then { r with formulaAnhydrous := v, mwAnhydrous := mwMinusWater r }
         else { r with formulaAnhydrous := v }) :: schemaFix vs rs
    else
      (if needsM r then { r with mwAnhydrous := mwMinusWater r }
       else r) :: schemaFix fvals rs

/-- `ensure_db_schema` of src/optithor/paths.py: derive the anhydrous
columns for rows missing them.  The bases of all rows needing ANY
derivation are collected in order and truncated to the number of rows
needing a formula before being assigned positionally to those rows. -/
def ensureDbSchema (rows : List DbRow) : List DbRow :=
  if rows.isEmpty then rows
  else if (rows.filter needsA).isEmpty then rows
  else
    schemaFix
      (((rows.filter needsA).map (fun r => (splitHydrateFormula r.formula).1)).take
        (rows.filter needsF).length)
      rows

/-- C6 (code bug): when a row needing only the molar mass precedes a row
needing the formula, the truncated bases list shifts: the second row
receives the FIRST row's hydrate base "A" instead of its own base "B". -/
theorem ensureDbSchema_misaligned :
    (ensureDbSchema
        [⟨"1", "", "A", "A", some 10, none⟩,
          ⟨"2", "", "B", "", some 5, some 5⟩]).map DbRow.formulaAnhydrous
      = ["A", "A"]
    ∧ (splitHydrateFormula "B").1 = "B" := by
  constructor
  · rfl
  · rfl

/-! ## CompoundDb.get_compounds_by_cids, fetch_missing=False
(src/optithor/compound_db.py) -/

/-- `_normalize_cid` of compound_db.py: trim; empty / "none" / "nan"
(case-insensitively) become ""; one trailing ".0" is removed. -/
def normalizeCid (value : String) : String :=
  let s := strip value
  if s = "" ∨ lower s = "none" ∨ lower s = "nan" then ""
  else if s.data.length ≥ 2 ∧ s.data.drop (s.data.length - 2) = ['.', '0']
    then (⟨s.data.take (s.data.length - 2)⟩ : String) else s

/-- The pure synchronous path of `get_compounds_by_cids` (fetch_missing =
False; no client is consulted).  `table` is the loaded, normalized
frame.  The ordered-`Categorical` sort is modelled as grouping the hits
by their identifier's position in the requested list (every hit's
identifier is one of the categories, and pandas sorts by category code);
constructing the Categorical with duplicate categories raises, which the
`Except.error` branch mirrors. -/
def getCompoundsByCids (table : List DbRow) (cids : List String) :
    Except String (List DbRow) :=
  let wanted := (cids.map normalizeCid).filter (fun w => decide (w ≠ ""))
  if wanted.isEmpty then .ok []
  else if table.isEmpty then .ok []
  else
    let hit := table.filter (fun r => decide (r.cid ∈ wanted))
    if hit.isEmpty then .ok []
    else if wanted.Nodup then
      .ok (wanted.flatMap (fun w => hit.filter (fun r => decide (r.cid = w))))
    else .error "Categorical categories must be unique"

theorem pairwise_of_forall_mem (l : List DbRow) (R : DbRow → DbRow → Prop)
    (h : ∀ a ∈ l, ∀ b ∈ l, R a b) : List.Pairwise R l := by
  induction l with
  | nil => exact List.Pairwise.nil
  | cons x xs ih =>
    refine List.Pairwise.cons
      (fun b hb => h x (List.mem_cons_self _ _) b (List.mem_cons_of_mem _ hb))
      (ih (fun a ha b hb =>
        h a (List.mem_cons_of_mem _ ha) b (List.mem_cons_of_mem _ hb)))

/-- Every two elements of a grouped-by-key bind are ordered by their
key's position in the (duplicate-free) key list. -/
theorem pairwise_bind_groups (W : List String) (f : String → List DbRow)
    (hf : ∀ w ∈ W, ∀ r ∈ f w, r.cid = w) (hnd : W.Nodup) :
    List.Pairwise (fun a b => W.indexOf a.cid ≤ W.indexOf b.cid) (W.flatMap f) := by
  induction W with
  | nil => exact List.Pairwise.nil
  | cons w ws ih =>
    rw [List.flatMap_cons]
    rw [List.pairwise_append]
    refine ⟨?_, ?_, ?_⟩
    · -- all rows of f w share the key w
      refine pairwise_of_forall_mem (f w) _ ?_
      intro a ha b hb
      rw [hf w (List.mem_cons_self _ _) a ha, hf w (List.mem_cons_self _ _) b hb]
    · -- the tail groups, transported from ws to w :: ws
      have hp := ih (fun w2 h2 r hr => hf w2 (List.mem_cons_of_mem _ h2) r hr)
        (List.nodup_cons.mp hnd).2
      refine List.Pairwise.imp_of_mem ?_ hp
      intro a b ha hb hab
      have hcid : ∀ x ∈ ws.flatMap f, x.cid ∈ ws := by
        intro x hx
        rcases List.mem_flatMap.mp hx with ⟨w2, h2, hx2⟩
        rw [hf w2 (List.mem_cons_of_mem _ h2) x hx2]
        exact h2
      have hwa : a.cid ≠ w := fun he =>
        (List.nodup_cons.mp hnd).1 (he ▸ hcid a ha)
      have hwb : b.cid ≠ w := fun he =>
        (List.nodup_cons.mp hnd).1 (he ▸ hcid b hb)
      rw [List.indexOf_cons_ne ws (Ne.symm hwa), List.indexOf_cons_ne ws (Ne.symm hwb)]
      exact Nat.succ_le_succ hab
    · -- the head group comes before every tail row
      intro a ha b _
      rw [hf w (List.mem_cons_self _ _) a ha, List.indexOf_cons_self]
      exact Nat.zero_le _

/-- C10: requesting the same normalized identifier more than once while at
least one requested identifier matches a table row makes
`get_compounds_by_cids` (fetch_missing=False) raise — the ordered
Categorical is built over the non-deduplicated request list. -/
theorem getCompoundsByCids_duplicate_raises (table : List DbRow) (cids : List String)
    (hdup : ¬((cids.map normalizeCid).filter (fun w => decide (w ≠ ""))).Nodup)
    (hmatch : table.filter (fun r =>
        decide (r.cid ∈ (cids.map normalizeCid).filter (fun w => decide (w ≠ "")))) ≠ []) :
    getCompoundsByCids table cids = .error "Categorical categories must be unique" := by
  unfold getCompoundsByCids
  have hw : ¬((cids.map normalizeCid).filter (fun w => decide (w ≠ ""))).isEmpty = true := by
    intro h0
    exact hdup ((List.isEmpty_iff.mp h0) ▸ List.nodup_nil)
  have ht : ¬table.isEmpty = true := by
    intro h0
    rw [List.isEmpty_iff.mp h0] at hmatch
    exact hmatch rfl
  rw [if_neg hw, if_neg ht,
    if_neg (fun h0 => hmatch (List.isEmpty_iff.mp h0)), if_neg hdup]

/-- Witness for C10: identifiers "5793" and "5793.0" normalize to the same
key; the table contains "5793". -/
theorem getCompoundsByCids_duplicate_raises_witness :
    getCompoundsByCids [(⟨"5793", "", "", "", none, none⟩ : DbRow)] ["5793", "5793.0"]
      = .error "Categorical categories must be unique" :=
  getCompoundsByCids_duplicate_raises
    [(⟨"5793", "", "", "", none, none⟩ : DbRow)] ["5793", "5793.0"]
    (by decide) (by decide)

/-- C7 (counterexample): with a duplicated identifier in the request and a
matching table row, the call raises instead of returning a slice, so the
resolve path is not error-free for every requested list. -/
theorem getCompoundsByCids_not_always_ok :
    getCompoundsByCids [(⟨"5793", "", "", "", none, none⟩ : DbRow)] ["5793", "5793"]
      = .error "Categorical categories must be unique" := by
  rfl

/-- C7 (amended): provided the normalized requested identifiers are
pairwise distinct, resolving with fetch_missing=False returns (never an
error) exactly the matching rows, ordered by the position of their
identifier in the requested list, with unmatched identifiers simply
absent; no remote fetch is involved on this path (the model consults no
client). -/
theorem getCompoundsByCids_order (table : List DbRow) (cids : List String)
    (W : List String)
    (hW : W = (cids.map normalizeCid).filter (fun w => decide (w ≠ "")))
    (hnd : W.Nodup) :
    ∃ rows, getCompoundsByCids table cids = .ok rows
      ∧ (∀ r, r ∈ rows ↔ r ∈ table ∧ r.cid ∈ W)
      ∧ List.Pairwise (fun a b => W.indexOf a.cid ≤ W.indexOf b.cid) rows := by
  subst hW
  unfold getCompoundsByCids
  by_cases hw : ((cids.map normalizeCid).filter (fun w => decide (w ≠ ""))).isEmpty
  · refine ⟨[], by rw [if_pos hw], ?_, List.Pairwise.nil⟩
    intro r
    simp only [List.not_mem_nil, false_iff, not_and]
    intro _ hr
    rw [List.isEmpty_iff.mp hw] at hr
    cases hr
  · rw [if_neg hw]
    by_cases ht : table.isEmpty
    · refine ⟨[], by rw [if_pos ht], ?_, List.Pairwise.nil⟩
      intro r
      simp only [List.not_mem_nil, false_iff, not_and]
      intro hr _
      rw [List.isEmpty_iff.mp ht] at hr
      cases hr
    · rw [if_neg ht]
      by_cases hh : (table.filter (fun r =>
          decide (r.cid ∈ (cids.map normalizeCid).filter (fun w => decide (w ≠ ""))))).isEmpty
      · refine ⟨[], by rw [if_pos hh], ?_, List.Pairwise.nil⟩
        intro r
        simp only [List.not_mem_nil, false_iff, not_and]
        intro hr hcid
        have : r ∈ table.filter (fun r =>
            decide (r.cid ∈ (cids.map normalizeCid).filter (fun w => decide (w ≠ "")))) :=
          List.mem_filter.mpr ⟨hr, decide_eq_true hcid⟩
        rw [List.isEmpty_iff.mp hh] at this
        cases this
      · rw [if_neg hh, if_pos hnd]
        refine ⟨_, rfl, ?_, ?_⟩
        · intro r
          constructor
          · intro hr
            rcases List.mem_flatMap.mp hr with ⟨w, hwmem, hrf⟩
            have h1 := List.mem_filter.mp hrf
            have h2 := List.mem_filter.mp h1.1
            exact ⟨h2.1, (of_decide_eq_true h1.2) ▸ hwmem⟩
          · intro ⟨hrt, hrw⟩
            refine List.mem_flatMap.mpr ⟨r.cid, hrw, ?_⟩
            exact List.mem_filter.mpr
              ⟨List.mem_filter.mpr ⟨hrt, decide_eq_true hrw⟩, decide_eq_true rfl⟩
        · exact pairwise_bind_groups _ _
            (fun w _ r hr => of_decide_eq_true (List.mem_filter.mp hr).2) hnd

/-- Witness for the C7 amended theorem: the spec's scenario — requesting
["5793", "999999999"] against a table holding only "5793". -/
theorem getCompoundsByCids_order_witness :
    ∃ rows, getCompoundsByCids
        [(⟨"5793", "", "", "", none, none⟩ : DbRow)] ["5793", "999999999"] = .ok rows
      ∧ (∀ r, r ∈ rows ↔ r ∈ [(⟨"5793", "", "", "", none, none⟩ : DbRow)]
          ∧ r.cid ∈ ["5793", "999999999"])
      ∧ List.Pairwise
          (fun a b => List.indexOf a.cid ["5793", "999999999"]
            ≤ List.indexOf b.cid ["5793", "999999999"]) rows :=
  getCompoundsByCids_order [(⟨"5793", "", "", "", none, none⟩ : DbRow)]
    ["5793", "999999999"] ["5793", "999999999"] (by decide) (by decide)

/-! ## RemoteLookupClient retry policy
(compound_db_builder/step_03_fetch_pubchem.py `_get_json_with_retries`) -/

/-- One remote response as the retry loop observes it: `ok` is an HTTP
200 with a parsed JSON body (abstracted to a number), `err c` is a
non-200 HTTP status `c`, `transport` is an aiohttp client error or
timeout. -/
inductive RespEvent where
  | ok (body : Nat)
  | err (code : Nat)
  | transport
deriving DecidableEq, Repr

/-- The retry parameters of `PubchemConfig`. -/
structure RetryConfig where
  maxRetries : Nat
  initialBackoff : Nat
deriving Repr

/-- A retryable response: transport error/timeout, or HTTP 429/503. -/
def Retryable (e : RespEvent) : Prop :=
  e = .transport ∨ e = .err 429 ∨ e = .err 503

instance (e : RespEvent) : Decidable (Retryable e) := by
  unfold Retryable
  infer_instance

/-- The retry loop of `_get_json_with_retries`: `k` attempts remain, the
next attempt consumes response `i`, the current backoff is `b` seconds.
Returns the result (`none` = absent, never an exception) and the list of
sleeps performed. -/
def runRetries (resp : Nat → RespEvent) : Nat → Nat → Nat → Option Nat × List Nat
  | 0, _, _ => (none, [])
  | k + 1, i, b =>
    match resp i with
    | .ok body => (some body, [])
    | .transport =>
      let r := runRetries resp k (i + 1) (min (b * 2) 300)
      (r.1, b :: r.2)
    | .err c =>
      if c = 429 ∨ c = 503 then
        let r := runRetries resp k (i + 1) (min (b * 2) 300)
        (r.1, b :: r.2)
      else (none, [])

/-- `_get_json_with_retries`: run from attempt 0 with the configured
initial backoff. -/
def getJsonWithRetries (resp : Nat → RespEvent) (cfg : RetryConfig) :
    Option Nat × List Nat :=
  runRetries resp cfg.maxRetries 0 cfg.initialBackoff

/-- The backoff value before the (j+1)-th retry: starts at the initial
backoff and doubles after each retry, capped at 300 seconds. -/
def backoffSeq (b0 : Nat) : Nat → Nat
  | 0 => b0
  | j + 1 => min (backoffSeq b0 j * 2) 300

theorem runRetries_succ_ok (resp : Nat → RespEvent) (k i b body : Nat)
    (h : resp i = .ok body) :
    runRetries resp (k + 1) i b = (some body, []) := by
  have heq : runRetries resp (k + 1) i b
      = (match resp i with
        | .ok body => (some body, [])
        | .transport =>
          ((runRetries resp k (i + 1) (min (b * 2) 300)).1,
            b :: (runRetries resp k (i + 1) (min (b * 2) 300)).2)
        | .err c =>
          if c = 429 ∨ c = 503 then
            ((runRetries resp k (i + 1) (min (b * 2) 300)).1,
              b :: (runRetries resp k (i + 1) (min (b * 2) 300)).2)
          else (none, [])) := rfl
  rw [heq, h]

theorem runRetries_succ_retry (resp : Nat → RespEvent) (k i b : Nat)
    (h : Retryable (resp i)) :
    runRetries resp (k + 1) i b
      = ((runRetries resp k (i + 1) (min (b * 2) 300)).1,
         b :: (runRetries resp k (i + 1) (min (b * 2) 300)).2) := by
  have heq : runRetries resp (k + 1) i b
      = (match resp i with
        | .ok body => (some body, [])
        | .transport =>
          ((runRetries resp k (i + 1) (min (b * 2) 300)).1,
            b :: (runRetries resp k (i + 1) (min (b * 2) 300)).2)
        | .err c =>
          if c = 429 ∨ c = 503 then
            ((runRetries resp k (i + 1) (min (b * 2) 300)).1,
              b :: (runRetries resp k (i + 1) (min (b * 2) 300)).2)
          else (none, [])) := rfl
  rcases h with h1 | h1 | h1 <;> rw [heq, h1]
  all_goals rfl

theorem runRetries_succ_fatal (resp : Nat → RespEvent) (k i b c : Nat)
    (h : resp i = .err c) (hc : ¬(c = 429 ∨ c = 503)) :
    runRetries resp (k + 1) i b = (none, []) := by
  have heq : runRetries resp (k + 1) i b
      = (match resp i with
        | .ok body => (some body, [])
        | .transport =>
          ((runRetries resp k (i + 1) (min (b * 2) 300)).1,
            b :: (runRetries resp k (i + 1) (min (b * 2) 300)).2)
        | .err c =>
          if c = 429 ∨ c = 503 then
            ((runRetries resp k (i + 1) (min (b * 2) 300)).1,
              b :: (runRetries resp k (i + 1) (min (b * 2) 300)).2)
          else (none, [])) := rfl
  rw [heq, h]
  show (if c = 429 ∨ c = 503 then
      ((runRetries resp k (i + 1) (min (b * 2) 300)).1,
        b :: (runRetries resp k (i + 1) (min (b * 2) 300)).2)
    else (none, [])) = (none, [])
  rw [if_neg hc]

theorem runRetries_skip (resp : Nat → RespEvent) :
    ∀ (d k s b0 : Nat), d ≤ k → (∀ j, j < d → Retryable (resp (s + j))) →
      runRetries resp k s (backoffSeq b0 s)
        = ((runRetries resp (k - d) (s + d) (backoffSeq b0 (s + d))).1,
           ((List.range d).map (fun j => backoffSeq b0 (s + j)))
             ++ (runRetries resp (k - d) (s + d) (backoffSeq b0 (s + d))).2) := by
  intro d
  induction d with
  | zero =>
    intro k s b0 _ _
    simp
  | succ d ih =>
    intro k s b0 hdk hr
    cases k with
    | zero => omega
    | succ k2 =>
      have hr0 : Retryable (resp s) := by
        have := hr 0 (Nat.succ_pos d)
        simpa using this
      have hnext : min (backoffSeq b0 s * 2) 300 = backoffSeq b0 (s + 1) := rfl
      have hrest : ∀ j, j < d → Retryable (resp (s + 1 + j)) := by
        intro j hj
        have := hr (j + 1) (by omega)
        rw [show s + (j + 1) = s + 1 + j by omega] at this
        exact this
      have hsleeps : backoffSeq b0 s ::
            ((List.range d).map (fun j => backoffSeq b0 (s + 1 + j)))
          = (List.range (d + 1)).map (fun j => backoffSeq b0 (s + j)) := by
        rw [List.range_succ_eq_map, List.map_cons, List.map_map]
        rw [show s + 0 = s from rfl]
        rw [show ((fun j => backoffSeq b0 (s + j)) ∘ Nat.succ)
            = (fun j => backoffSeq b0 (s + 1 + j)) from funext (fun j => by
          show backoffSeq b0 (s + (j + 1)) = backoffSeq b0 (s + 1 + j)
          rw [show s + (j + 1) = s + 1 + j by omega])]
      have hstep := ih k2 (s + 1) b0 (by omega) hrest
      rw [runRetries_succ_retry resp k2 s (backoffSeq b0 s) hr0, hnext, hstep,
        show k2 + 1 - (d + 1) = k2 - d by omega,
        show s + (d + 1) = s + 1 + d by omega, ← hsleeps]
      rfl

/-- C8: the retried remote call behaves as the spec's retry state machine:
after any run of retryable responses (429/503 statuses, transport
errors/timeouts), each slept with the doubling, 300-capped backoff
starting at the initial backoff, an HTTP 200 returns its JSON body, any
other non-200 status returns an absent result immediately with no
further sleeps, and exhausting the `maxRetries` attempts yields an
absent result (a value, never an exception). -/
theorem getJson_retry_spec (resp : Nat → RespEvent) (cfg : RetryConfig) (i : Nat)
    (hi : ∀ j, j < i → Retryable (resp j)) :
    (i < cfg.maxRetries →
      (∀ b, resp i = .ok b →
        getJsonWithRetries resp cfg
          = (some b, (List.range i).map (backoffSeq cfg.initialBackoff)))
      ∧ (∀ c, resp i = .err c → ¬(c = 429 ∨ c = 503) →
        getJsonWithRetries resp cfg
          = (none, (List.range i).map (backoffSeq cfg.initialBackoff))))
    ∧ (cfg.maxRetries ≤ i →
      getJsonWithRetries resp cfg
        = (none, (List.range cfg.maxRetries).map (backoffSeq cfg.initialBackoff))) := by
  constructor
  · intro hlt
    constructor
    · intro b hb
      unfold getJsonWithRetries
      have hd := runRetries_skip resp i cfg.maxRetries 0 cfg.initialBackoff
        (Nat.le_of_lt hlt) (fun j hj => by simpa using hi j hj)
      simp only [Nat.zero_add] at hd
      rw [show cfg.initialBackoff = backoffSeq cfg.initialBackoff 0 from rfl, hd]
      obtain ⟨k2, hk2⟩ : ∃ k2, cfg.maxRetries - i = k2 + 1 :=
        ⟨cfg.maxRetries - i - 1, by omega⟩
      rw [hk2, runRetries_succ_ok resp k2 i (backoffSeq cfg.initialBackoff i) b hb]
      simp
      intro a _
      rfl
    · intro c hc hcc
      unfold getJsonWithRetries
      have hd := runRetries_skip resp i cfg.maxRetries 0 cfg.initialBackoff
        (Nat.le_of_lt hlt) (fun j hj => by simpa using hi j hj)
      simp only [Nat.zero_add] at hd
      rw [show cfg.initialBackoff = backoffSeq cfg.initialBackoff 0 from rfl, hd]
      obtain ⟨k2, hk2⟩ : ∃ k2, cfg.maxRetries - i = k2 + 1 :=
        ⟨cfg.maxRetries - i - 1, by omega⟩
      rw [hk2, runRetries_succ_fatal resp k2 i (backoffSeq cfg.initialBackoff i) c hc hcc]
      simp
      intro a _
      rfl
  · intro hge
    unfold getJsonWithRetries
    have hd := runRetries_skip resp cfg.maxRetries cfg.maxRetries 0 cfg.initialBackoff
      (Nat.le_refl _)
      (fun j hj => by simpa using hi j (Nat.lt_of_lt_of_le hj hge))
    simp only [Nat.zero_add] at hd
    rw [show cfg.initialBackoff = backoffSeq cfg.initialBackoff 0 from rfl, hd,
      Nat.sub_self]
    simp [runRetries]
    intro a _
    rfl

/-- Witness for C8: a transport error, then a 503, then a 200 carrying
body 7, under maxRetries = 8 and initial backoff 10: the call returns
the body after sleeping 10 and then 20 seconds. -/
theorem getJson_retry_spec_witness :
    getJsonWithRetries
        (fun j => if j = 0 then .transport else if j = 1 then .err 503 else .ok 7)
        ⟨8, 10⟩
      = (some 7, (List.range 2).map (backoffSeq 10)) :=
  ((getJson_retry_spec
      (fun j => if j = 0 then .transport else if j = 1 then .err 503 else .ok 7)
      ⟨8, 10⟩ 2 (by decide)).1 (by decide)).1 7 rfl

/-! ## MediumOptimizer (src/optithor/medium_optimizer.py) -/

/-- `ElementRequirement` of types.py. -/
structure ElementRequirement where
  referenceYield : ℚ
  excessFactor : ℚ
deriving DecidableEq, Repr

/-- `MediumOptimizationInput` of types.py; the requirement dict is an
ordered association list. -/
structure MediumOptimizationInput where
  compoundCids : List String
  maxDryBiomass : ℚ
  requiredElements : List (String × ElementRequirement)
deriving Repr

/-- `CompoundDose` of types.py. -/
structure CompoundDose where
  cid : String
  massGPerL : ℚ
  molPerL : ℚ
deriving Repr

/-- `ElementMatch` of types.py. -/
structure ElementMatch where
  element : String
  requiredMassGPerL : ℚ
  obtainedMassGPerL : ℚ
  matchPercent : ℚ
deriving Repr

/-- `MediumOptimizationResult` of types.py. -/
structure MediumOptimizationResult where
  success : Bool
  message : String
  compoundDoses : List CompoundDose
  elementMatches : List ElementMatch
  diagnostics : Option String
deriving Repr

/-- `LpSolution` of lp_solver.py; `x` is absent on failure. -/
structure LpSolution where
  success : Bool
  message : String
  x : Option (List ℚ)
deriving Repr

/-- Python `str(n)` inside an f-string. -/
def natToString (n : Nat) : String := ⟨natNumeral n⟩

/-- The per-element atom-count column over the compounds, as
optimize_medium fills it: `elemental_counts` of each row's anhydrous
formula, evaluated at the element. -/
def elementColumn (compounds : List DbRow) (els : List String) (e : String) :
    List Nat :=
  compounds.map (fun r => (dictGet (elementalCounts r.formulaAnhydrous els) e).getD 0)

/-- The elements `analyze_unsolvable_system` reports missing: column sum
zero (every selected element's column exists, optimize_medium creates
them all). -/
def missingElements (compounds : List DbRow) (els : List String) : List String :=
  els.filter (fun e => decide ((elementColumn compounds els e).sum = 0))

/-- Python `", ".join(l)`. -/
def joinSep : List String → String
  | [] => ""
  | [s] => s
  | s :: r :: rest => s ++ ", " ++ joinSep (r :: rest)

/-- Anchored Boolean test: does `hay` start with `n`? -/
def startsWithChars : List Char → List Char → Bool
  | [], _ => true
  | _ :: _, [] => false
  | a :: as, b :: bs => a = b && startsWithChars as bs

/-- Boolean substring search over character lists. -/
def hasSubstr (n : List Char) : List Char → Bool
  | [] => n.isEmpty
  | c :: t => startsWithChars n (c :: t) || hasSubstr n t

/-- `needle in hay` — the Python substring test the claims speak of. -/
def strContains (hay needle : String) : Prop :=
  hasSubstr needle.data hay.data = true

theorem strData_append (a b : String) : (a ++ b).data = a.data ++ b.data := rfl

theorem natToString_data (n : Nat) : (natToString n).data = natNumeral n := rfl

theorem startsWithChars_self_append (n r : List Char) :
    startsWithChars n (n ++ r) = true := by
  induction n with
  | nil => rfl
  | cons a as ih => simp [startsWithChars, ih]

theorem hasSubstr_nil_needle (hay : List Char) : hasSubstr [] hay = true := by
  cases hay with
  | nil => rfl
  | cons c t => simp [hasSubstr, startsWithChars]

theorem hasSubstr_self_append (n r : List Char) : hasSubstr n (n ++ r) = true := by
  cases n with
  | nil => exact hasSubstr_nil_needle r
  | cons a as =>
    show hasSubstr (a :: as) (a :: (as ++ r)) = true
    unfold hasSubstr
    rw [show a :: (as ++ r) = (a :: as) ++ r from rfl,
      startsWithChars_self_append (a :: as) r, Bool.true_or]

theorem hasSubstr_append_right (n l r : List Char) (h : hasSubstr n r = true) :
    hasSubstr n (l ++ r) = true := by
  induction l with
  | nil => exact h
  | cons c t ih =>
    show hasSubstr n (c :: (t ++ r)) = true
    unfold hasSubstr
    rw [ih, Bool.or_true]

theorem strContains_of_data (y x : String) (pre post : List Char)
    (h : y.data = pre ++ (x.data ++ post)) : strContains y x := by
  unfold strContains
  rw [h]
  exact hasSubstr_append_right _ _ _ (hasSubstr_self_append _ _)

theorem strContains_append_right (a b x : String) (h : strContains b x) :
    strContains (a ++ b) x := by
  unfold strContains at *
  rw [strData_append]
  exact hasSubstr_append_right _ _ _ h

theorem joinSep_decomp (l : List String) (e : String) (he : e ∈ l) :
    ∃ pre post, (joinSep l).data = pre ++ (e.data ++ post) := by
  induction l with
  | nil => cases he
  | cons s rest ih =>
    cases rest with
    | nil =>
      have hes : e = s := by simpa using he
      subst hes
      exact ⟨[], [], by simp [joinSep]⟩
    | cons r2 rest2 =>
      rcases List.mem_cons.mp he with h1 | h1
      · subst h1
        refine ⟨[], (", " : String).data ++ (joinSep (r2 :: rest2)).data, ?_⟩
        show ((e ++ ", ") ++ joinSep (r2 :: rest2)).data = _
        simp [strData_append]
      · rcases ih h1 with ⟨pre, post, hjoin⟩
        refine ⟨s.data ++ (", " : String).data ++ pre, post, ?_⟩
        show ((s ++ ", ") ++ joinSep (r2 :: rest2)).data = _
        rw [strData_append, strData_append, hjoin]
        simp [List.append_assoc]

/-- The message parts after the constraints-count sentence, joined with
single spaces as in the source's `" ".join(message_parts)`. -/
def analyzeTail (missing : List String) : String :=
  if missing = [] then
    "All required elements were found in the provided compounds, but the constraints could not be satisfied. This may be due to insufficient compound availability or conflicting constraints."
  else
    (if missing.length = 1 then
      "However, the required element \x27" ++ missing.headD ""
        ++ "\x27 is missing or not present in the provided compounds."
    else
      "However, the following " ++ natToString missing.length
        ++ " elements are missing or not present in the provided compounds: "
        ++ joinSep missing ++ ".")
    ++ " "
    ++ "Please ensure that the input compounds contain these missing elements or review the required constraints."

/-- `analyze_unsolvable_system` of medium_optimizer.py: the diagnostics
text. -/
def analyzeUnsolvableSystem (numConstraints : Nat) (compounds : List DbRow)
    (selectedElements : List String) : String :=
  "A total of " ++ natToString numConstraints
    ++ " constraints were applied to match required elements with available compounds."
    ++ " "
    ++ analyzeTail (missingElements compounds selectedElements)

theorem analyze_contains_total (n : Nat) (compounds : List DbRow) (els : List String) :
    strContains (analyzeUnsolvableSystem n compounds els)
      ("A total of " ++ natToString n ++ " constraints") := by
  unfold analyzeUnsolvableSystem
  apply strContains_of_data _ _ []
    ((" were applied to match required elements with available compounds." : String).data
      ++ ((" " : String).data
        ++ (analyzeTail (missingElements compounds els)).data))
  simp only [strData_append, natToString_data]
  simp [List.append_assoc]

theorem analyze_contains_missing (n : Nat) (compounds : List DbRow) (els : List String) :
    ∀ e ∈ missingElements compounds els,
      strContains (analyzeUnsolvableSystem n compounds els) e := by
  intro e he
  unfold analyzeUnsolvableSystem
  apply strContains_append_right
  unfold analyzeTail
  have hne : ¬(missingElements compounds els = []) := by
    intro h0
    rw [h0] at he
    cases he
  rw [if_neg hne]
  by_cases h1 : (missingElements compounds els).length = 1
  · rw [if_pos h1]
    obtain ⟨m, hm⟩ : ∃ m, missingElements compounds els = [m] :=
      List.length_eq_one.mp h1
    rw [hm]
    rw [hm] at he
    have hem : e = m := by simpa using he
    subst hem
    apply strContains_of_data _ _ ("However, the required element \x27" : String).data
      (("\x27 is missing or not present in the provided compounds." : String).data
        ++ ((" " : String).data
          ++ ("Please ensure that the input compounds contain these missing elements or review the required constraints." : String).data))
    simp only [strData_append, List.headD]
    simp [List.append_assoc]
  · rw [if_neg h1]
    rcases joinSep_decomp _ e he with ⟨pre, post, hjoin⟩
    apply strContains_of_data _ _
      (("However, the following " : String).data
        ++ (natNumeral (missingElements compounds els).length
          ++ ((" elements are missing or not present in the provided compounds: " : String).data
            ++ pre)))
      (post ++ (("." : String).data
        ++ ((" " : String).data
          ++ ("Please ensure that the input compounds contain these missing elements or review the required constraints." : String).data)))
    simp only [strData_append, natToString_data]
    rw [hjoin]
    simp [List.append_assoc]

theorem analyze_contains_allfound (n : Nat) (compounds : List DbRow)
    (els : List String) (h : missingElements compounds els = []) :
    strContains (analyzeUnsolvableSystem n compounds els)
      "All required elements were found in the provided compounds, but the constraints could not be satisfied" := by
  unfold analyzeUnsolvableSystem
  apply strContains_append_right
  unfold analyzeTail
  rw [if_pos h]
  apply strContains_of_data _ _ []
    ((". This may be due to insufficient compound availability or conflicting constraints." : String).data)
  rfl

/-- The requirement rows surviving the positivity filter (non-positive
yield or excess factor are dropped, not zeroed). -/
def validRequirements (input : MediumOptimizationInput) :
    List (String × ElementRequirement) :=
  input.requiredElements.filter
    (fun p => decide (0 < p.2.referenceYield) && decide (0 < p.2.excessFactor))

/-- The (element, requiredMass, requiredMoles) rows of optimize_medium. -/
def requirementRows (mm : String → ℚ) (input : MediumOptimizationInput) :
    List (String × ℚ × ℚ) :=
  (validRequirements input).map (fun p =>
    (p.1, input.maxDryBiomass / p.2.referenceYield * p.2.excessFactor,
      input.maxDryBiomass / p.2.referenceYield * p.2.excessFactor / mm p.1))

/-- The selected elements, in requirement order. -/
def selectedElementsOf (input : MediumOptimizationInput) : List String :=
  (validRequirements input).map (fun p => p.1)

/-- `a_eq`: one row per required element, one column per compound. -/
def buildAEq (compounds : List DbRow) (els : List String) : List (List ℚ) :=
  els.map (fun e => (elementColumn compounds els e).map (fun n => (n : ℚ)))

/-- `b_eq`: the required moles per element. -/
def buildBEq (mm : String → ℚ) (input : MediumOptimizationInput) : List ℚ :=
  (requirementRows mm input).map (fun t => t.2.2)

/-- The doses on the success path: mol · hydrated MW per compound, kept
when finite (molar mass present) and positive, sorted by mass
descending. -/
def computeDoses (compounds : List DbRow) (x : List ℚ) : List CompoundDose :=
  ((compounds.zip x).filterMap (fun p =>
    match p.1.mw with
    | none => none
    | some m => if 0 < p.2 * m then some ⟨p.1.cid, p.2 * m, p.2⟩ else none)
  ).insertionSort (fun d1 d2 => d2.massGPerL ≤ d1.massGPerL)

/-- The element matches on the success path. -/
def computeMatches (mm : String → ℚ) (compounds : List DbRow) (els : List String)
    (reqRows : List (String × ℚ × ℚ)) (x : List ℚ) : List ElementMatch :=
  reqRows.map (fun t =>
    let obtainedMol := (((elementColumn compounds els t.1).map (fun n => (n : ℚ))).zip x
      ).foldl (fun a p => a + p.1 * p.2) 0
    ⟨t.1, t.2.1, obtainedMol * mm t.1,
      if 0 < t.2.1 then obtainedMol * mm t.1 / t.2.1 * 100 else 0⟩)

/-- The tail of `optimize_medium` after the solver call: succeed with
doses and matches when the solver succeeded with a vector, otherwise
fail with the diagnostics of `analyze_unsolvable_system`. -/
def finishOptimize (compounds : List DbRow) (els : List String)
    (reqRows : List (String × ℚ × ℚ)) (mm : String → ℚ) (bEq : List ℚ)
    (sol : LpSolution) : MediumOptimizationResult :=
  match sol.x with
  | none =>
    ⟨false, "optimization could not be solved: " ++ sol.message, [], [],
      some (analyzeUnsolvableSystem bEq.length compounds els)⟩
  | some xs =>
    if sol.success then
      ⟨true, sol.message, computeDoses compounds xs,
        computeMatches mm compounds els reqRows xs, none⟩
    else
      ⟨false, "optimization could not be solved: " ++ sol.message, [], [],
        some (analyzeUnsolvableSystem bEq.length compounds els)⟩

/-- `optimize_medium` of medium_optimizer.py.  The compound repository,
the (chempy-backed) element molar-mass function and the scipy linear
solver are external collaborators passed as functions. -/
def optimizeMedium (repo : List String → List DbRow) (mm : String → ℚ)
    (solver : List (List ℚ) → List ℚ → Nat → LpSolution)
    (input : MediumOptimizationInput) : MediumOptimizationResult :=
  if (repo input.compoundCids).isEmpty then
    ⟨false, "no compounds found for provided cids", [], [],
      some "repository returned an empty dataframe"⟩
  else if (requirementRows mm input).isEmpty then
    ⟨false, "no valid element requirements provided", [], [],
      some "all elements had non-positive yield or excess factor"⟩
  else
    finishOptimize (ensureDbSchema (repo input.compoundCids)) (selectedElementsOf input)
      (requirementRows mm input) mm (buildBEq mm input)
      (solver
        (buildAEq (ensureDbSchema (repo input.compoundCids)) (selectedElementsOf input))
        (buildBEq mm input)
        (ensureDbSchema (repo input.compoundCids)).length)

theorem finishOptimize_failure (compounds : List DbRow) (els : List String)
    (reqRows : List (String × ℚ × ℚ)) (mm : String → ℚ) (bEq : List ℚ)
    (sol : LpSolution) (h : sol.success = false ∨ sol.x = none) :
    finishOptimize compounds els reqRows mm bEq sol
      = ⟨false, "optimization could not be solved: " ++ sol.message, [], [],
        some (analyzeUnsolvableSystem bEq.length compounds els)⟩ := by
  unfold finishOptimize
  cases hx : sol.x with
  | none => rfl
  | some xs =>
    rcases h with hf | hf
    · simp [hf]
    · rw [hf] at hx
      cases hx

/-- C9: whenever the linear solve fails, optimize_medium returns
success = false with diagnostics text that states the number of element
constraints applied, names every required element whose atom-count
column is entirely zero across the resolved compounds, and — when no
required element is structurally missing — states that all elements
were present but the constraints could not be satisfied. -/
theorem optimizeMedium_failure_diagnostics
    (repo : List String → List DbRow) (mm : String → ℚ)
    (solver : List (List ℚ) → List ℚ → Nat → LpSolution)
    (input : MediumOptimizationInput)
    (h0 : (repo input.compoundCids).isEmpty = false)
    (hreq : (requirementRows mm input).isEmpty = false)
    (hfail : (solver
        (buildAEq (ensureDbSchema (repo input.compoundCids)) (selectedElementsOf input))
        (buildBEq mm input)
        (ensureDbSchema (repo input.compoundCids)).length).success = false
      ∨ (solver
        (buildAEq (ensureDbSchema (repo input.compoundCids)) (selectedElementsOf input))
        (buildBEq mm input)
        (ensureDbSchema (repo input.compoundCids)).length).x = none) :
    (optimizeMedium repo mm solver input).success = false
    ∧ (optimizeMedium repo mm solver input).diagnostics
        = some (analyzeUnsolvableSystem (buildBEq mm input).length
            (ensureDbSchema (repo input.compoundCids)) (selectedElementsOf input))
    ∧ strContains
        (analyzeUnsolvableSystem (buildBEq mm input).length
          (ensureDbSchema (repo input.compoundCids)) (selectedElementsOf input))
        ("A total of " ++ natToString (buildBEq mm input).length ++ " constraints")
    ∧ (∀ e ∈ missingElements (ensureDbSchema (repo input.compoundCids))
          (selectedElementsOf input),
        strContains
          (analyzeUnsolvableSystem (buildBEq mm input).length
            (ensureDbSchema (repo input.compoundCids)) (selectedElementsOf input)) e)
    ∧ (missingElements (ensureDbSchema (repo input.compoundCids))
          (selectedElementsOf input) = [] →
        strContains
          (analyzeUnsolvableSystem (buildBEq mm input).length
            (ensureDbSchema (repo input.compoundCids)) (selectedElementsOf input))
          "All required elements were found in the provided compounds, but the constraints could not be satisfied") := by
  have hres : optimizeMedium repo mm solver input
      = ⟨false, "optimization could not be solved: "
          ++ (solver
            (buildAEq (ensureDbSchema (repo input.compoundCids)) (selectedElementsOf input))
            (buildBEq mm input)
            (ensureDbSchema (repo input.compoundCids)).length).message, [], [],
        some (analyzeUnsolvableSystem (buildBEq mm input).length
          (ensureDbSchema (repo input.compoundCids)) (selectedElementsOf input))⟩ := by
    unfold optimizeMedium
    rw [if_neg (by rw [h0]; exact Bool.false_ne_true),
      if_neg (by rw [hreq]; exact Bool.false_ne_true)]
    exact finishOptimize_failure _ _ _ _ _ _ hfail
  refine ⟨by rw [hres], by rw [hres], analyze_contains_total _ _ _,
    analyze_contains_missing _ _ _, analyze_contains_allfound _ _ _⟩

/-- Witness for C9: one carbon-free compound, a required element "C", a
solver reporting infeasibility: the optimization fails and the
diagnostics name "C". -/
theorem optimizeMedium_failure_diagnostics_witness :
    (optimizeMedium (fun _ => [⟨"10176", "water", "H2O", "H2O", some 18, some 18⟩])
        (fun _ => 12)
        (fun _ _ _ => ⟨false, "infeasible", none⟩)
        ⟨["10176"], 10, [("C", ⟨1, 1⟩)]⟩).success = false :=
  (optimizeMedium_failure_diagnostics
    (fun _ => [⟨"10176", "water", "H2O", "H2O", some 18, some 18⟩])
    (fun _ => 12)
    (fun _ _ _ => ⟨false, "infeasible", none⟩)
    ⟨["10176"], 10, [("C", ⟨1, 1⟩)]⟩
    rfl (by decide) (Or.inl rfl)).1

end Optithor
